import Mathlib

/-!
# Verification of the qms-cli document lifecycle engine

A shallow embedding of the parts of the `qms-cli` repository that govern
document workflow state: the metadata store (`qms_meta.py`), the workflow
engine (`workflow.py`), the permission layer (`qms_auth.py` / `qms_config.py`),
document I/O (`qms_io.py`), the audit comment queries (`qms_audit.py`), and the
command layer (`src/commands/*.py`).

Python dictionaries holding workflow metadata are modelled as a total record
(`Meta`); absent dictionary keys correspond to the default field values that
the code supplies through `dict.get`.  Python strings are modelled as `String`
or, where character-level behaviour matters (frontmatter framing), `List Char`.
-/

namespace QMS

/-- Document workflow status values, from the `Status` enum in `qms_config.py`. -/
inductive Status where
  | DRAFT
  | IN_REVIEW
  | REVIEWED
  | IN_APPROVAL
  | APPROVED
  | EFFECTIVE
  | IN_PRE_REVIEW
  | PRE_REVIEWED
  | IN_PRE_APPROVAL
  | PRE_APPROVED
  | IN_EXECUTION
  | IN_POST_REVIEW
  | POST_REVIEWED
  | IN_POST_APPROVAL
  | POST_APPROVED
  | CLOSED
  | RETIRED
  deriving DecidableEq, Repr

/-- The string value of a status, as serialized in `.meta` files. -/
def Status.str : Status → String
  | .DRAFT => "DRAFT"
  | .IN_REVIEW => "IN_REVIEW"
  | .REVIEWED => "REVIEWED"
  | .IN_APPROVAL => "IN_APPROVAL"
  | .APPROVED => "APPROVED"
  | .EFFECTIVE => "EFFECTIVE"
  | .IN_PRE_REVIEW => "IN_PRE_REVIEW"
  | .PRE_REVIEWED => "PRE_REVIEWED"
  | .IN_PRE_APPROVAL => "IN_PRE_APPROVAL"
  | .PRE_APPROVED => "PRE_APPROVED"
  | .IN_EXECUTION => "IN_EXECUTION"
  | .IN_POST_REVIEW => "IN_POST_REVIEW"
  | .POST_REVIEWED => "POST_REVIEWED"
  | .IN_POST_APPROVAL => "IN_POST_APPROVAL"
  | .POST_APPROVED => "POST_APPROVED"
  | .CLOSED => "CLOSED"
  | .RETIRED => "RETIRED"

/-- Execution phase of an executable document (`workflow.py`, `ExecutionPhase`). -/
inductive ExecutionPhase where
  | pre_release
  | post_release
  deriving DecidableEq, Repr

/-- Review outcomes recorded by the `review` command (`qms_schema.REVIEW_OUTCOMES`). -/
inductive ReviewOutcome where
  | RECOMMEND
  | UPDATES_REQUIRED
  deriving DecidableEq, Repr

/-- A document version string `N.X`.  The code stores versions as strings and
parses the major part with `int(version.split(".")[0])`; we model the parsed
form directly. -/
structure Version where
  major : Nat
  minor : Nat
  deriving DecidableEq, Repr

/-- The string form of a version, `f"{major}.{minor}"`. -/
def Version.str (v : Version) : String :=
  toString v.major ++ "." ++ toString v.minor

/-- Workflow metadata for one document: the `.meta/<type>/<docId>.json`
dictionary of `qms_meta.py`, as a total record.  The fields
`pending_reviewers`, `completed_reviewers` and `review_outcomes` are the
review-cycle fields written by `update_meta_checkin`; `review_outcomes`
accumulates `(reviewer, outcome)` pairs for the current review cycle. -/
structure Meta where
  version : Version
  status : Status
  executable : Bool
  execution_phase : Option ExecutionPhase
  responsible_user : Option String
  checked_out : Bool
  checked_out_date : Option String
  effective_version : Option Version
  supersedes : Option String
  pending_assignees : List String
  pending_reviewers : List String
  completed_reviewers : List String
  review_outcomes : List (String × ReviewOutcome)
  retiring : Bool
  deriving DecidableEq, Repr

/-- The record corresponding to an empty metadata dictionary: every command
reads `meta = read_meta(...) or {}` and then accesses keys through `.get`
with these defaults (`status` default "DRAFT", `version` default "0.1",
booleans default false, lists default empty). -/
def Meta.empty : Meta where
  version := ⟨0, 1⟩
  status := .DRAFT
  executable := false
  execution_phase := none
  responsible_user := none
  checked_out := false
  checked_out_date := none
  effective_version := none
  supersedes := none
  pending_assignees := []
  pending_reviewers := []
  completed_reviewers := []
  review_outcomes := []
  retiring := false

/-- `meta = read_meta(doc_id, doc_type) or {}` as used by the command layer. -/
def metaOr (o : Option Meta) : Meta := o.getD Meta.empty

/-- `create_initial_meta` from `qms_meta.py`: the metadata written for a newly
created document.  `checked_out` is `True if responsible_user else False`
(a `Some ""` owner is falsy in Python), and `execution_phase` is
`pre_release` for executable documents, else null. -/
def create_initial_meta (version : Version) (status : Status) (executable : Bool)
    (responsible_user : Option String) (today : String) : Meta :=
  let owned := match responsible_user with
    | some u => u ≠ ""
    | none => false
  { version := version
    status := status
    executable := executable
    execution_phase := if executable then some .pre_release else none
    responsible_user := responsible_user
    checked_out := owned
    checked_out_date := if owned then some today else none
    effective_version := none
    supersedes := none
    pending_assignees := []
    pending_reviewers := []
    completed_reviewers := []
    review_outcomes := []
    retiring := false }

/-- `update_meta_checkout` from `qms_meta.py`: sets owner and checkout flags,
optionally bumping to a new version. -/
def update_meta_checkout (meta : Meta) (user : String) (today : String)
    (new_version : Option Version) : Meta :=
  let meta := { meta with
    responsible_user := some user
    checked_out := true
    checked_out_date := some today }
  match new_version with
  | some v => { meta with version := v }
  | none => meta

/-- `update_meta_checkin` from `qms_meta.py`: clears the checkout flags and,
when the current status is a reviewed state, reverts to DRAFT and resets the
review-cycle fields (`pending_reviewers`, `completed_reviewers`,
`review_outcomes`).  `execution_phase` is deliberately preserved (CR-013 /
INV-003-CAPA-4), and `pending_assignees` is not touched. -/
def update_meta_checkin (meta : Meta) : Meta :=
  let meta := { meta with checked_out := false, checked_out_date := none }
  if meta.status = .REVIEWED ∨ meta.status = .PRE_REVIEWED ∨ meta.status = .POST_REVIEWED then
    { meta with
      status := .DRAFT
      pending_reviewers := []
      completed_reviewers := []
      review_outcomes := [] }
  else
    meta

/-- `update_meta_route` from `qms_meta.py`: sets the target status and the
pending assignees. -/
def update_meta_route (meta : Meta) (new_status : Status) (assignees : List String) : Meta :=
  { meta with status := new_status, pending_assignees := assignees }

/-- `update_meta_review_complete` from `qms_meta.py`: stores the remaining
assignees and, when given, the new status. -/
def update_meta_review_complete (meta : Meta) (remaining_assignees : List String)
    (new_status : Option Status) : Meta :=
  let meta := { meta with pending_assignees := remaining_assignees }
  match new_status with
  | some s => { meta with status := s }
  | none => meta

/-- Modelled from the spec: recording of the review outcome at submission.
`commands/review.py` passes the submitting reviewer's `outcome` to
`update_meta_review_complete` (the spec's `reviewComplete(meta, user,
remaining, outcome, newStatus?)`), but the copy of `qms_meta.py` in the
source tree lacks the outcome parameter; the recording half is modelled here
from the spec, appending the `(user, outcome)` pair to the current cycle's
`review_outcomes`. -/
def record_review_outcome (meta : Meta) (user : String) (outcome : ReviewOutcome) : Meta :=
  { meta with review_outcomes := meta.review_outcomes ++ [(user, outcome)] }

/-- `update_meta_approval` from `qms_meta.py`: sets the new status, clears
pending assignees, optionally bumps the version, and when `clear_owner` is
set also clears owner/checkout and records the effective version. -/
def update_meta_approval (meta : Meta) (new_status : Status) (new_version : Option Version)
    (clear_owner : Bool) : Meta :=
  let meta := { meta with status := new_status, pending_assignees := [] }
  let meta := match new_version with
    | some v => { meta with version := v }
    | none => meta
  if clear_owner then
    { meta with
      responsible_user := none
      checked_out := false
      checked_out_date := none
      effective_version := some meta.version }
  else
    meta

/-- Actions on documents (`workflow.py`, `Action`). -/
inductive Action where
  | route_review
  | route_approval
  | review
  | approve
  | reject
  | release
  | revert
  | close
  deriving DecidableEq, Repr

/-- Workflow phases used for task generation (`workflow.py`, `WorkflowType`). -/
inductive WorkflowType where
  | REVIEW
  | APPROVAL
  | PRE_REVIEW
  | PRE_APPROVAL
  | POST_REVIEW
  | POST_APPROVAL
  deriving DecidableEq, Repr

/-- The string value of a workflow type. -/
def WorkflowType.str : WorkflowType → String
  | .REVIEW => "REVIEW"
  | .APPROVAL => "APPROVAL"
  | .PRE_REVIEW => "PRE_REVIEW"
  | .PRE_APPROVAL => "PRE_APPROVAL"
  | .POST_REVIEW => "POST_REVIEW"
  | .POST_APPROVAL => "POST_APPROVAL"

/-- `workflow_type.lower()` as used in task file names. -/
def WorkflowType.lower : WorkflowType → String
  | .REVIEW => "review"
  | .APPROVAL => "approval"
  | .PRE_REVIEW => "pre_review"
  | .PRE_APPROVAL => "pre_approval"
  | .POST_REVIEW => "post_review"
  | .POST_APPROVAL => "post_approval"

/-- A single workflow transition record (`workflow.py`, `StatusTransition`). -/
structure StatusTransition where
  from_status : Status
  to_status : Status
  action : Action
  workflow_type : Option WorkflowType := none
  requires_assignment : Bool := false
  version_bump : Option String := none
  archives_version : Bool := false
  clears_owner : Bool := false
  for_executable : Option Bool := none
  requires_phase : Option ExecutionPhase := none
  deriving DecidableEq, Repr

/-- The declarative transition table `WORKFLOW_TRANSITIONS` from `workflow.py`. -/
def WORKFLOW_TRANSITIONS : List StatusTransition := [
  { from_status := .DRAFT, to_status := .IN_REVIEW, action := .route_review,
    workflow_type := some .REVIEW, for_executable := some false },
  { from_status := .DRAFT, to_status := .IN_PRE_REVIEW, action := .route_review,
    workflow_type := some .PRE_REVIEW, for_executable := some true,
    requires_phase := some .pre_release },
  { from_status := .DRAFT, to_status := .IN_POST_REVIEW, action := .route_review,
    workflow_type := some .POST_REVIEW, for_executable := some true,
    requires_phase := some .post_release },
  { from_status := .IN_EXECUTION, to_status := .IN_POST_REVIEW, action := .route_review,
    workflow_type := some .POST_REVIEW, for_executable := some true,
    requires_phase := some .post_release },
  { from_status := .REVIEWED, to_status := .IN_APPROVAL, action := .route_approval,
    workflow_type := some .APPROVAL, for_executable := some false },
  { from_status := .PRE_REVIEWED, to_status := .IN_PRE_APPROVAL, action := .route_approval,
    workflow_type := some .PRE_APPROVAL, for_executable := some true,
    requires_phase := some .pre_release },
  { from_status := .POST_REVIEWED, to_status := .IN_POST_APPROVAL, action := .route_approval,
    workflow_type := some .POST_APPROVAL, for_executable := some true,
    requires_phase := some .post_release },
  { from_status := .IN_REVIEW, to_status := .REVIEWED, action := .review,
    workflow_type := some .REVIEW, requires_assignment := true, for_executable := some false },
  { from_status := .IN_PRE_REVIEW, to_status := .PRE_REVIEWED, action := .review,
    workflow_type := some .PRE_REVIEW, requires_assignment := true, for_executable := some true },
  { from_status := .IN_POST_REVIEW, to_status := .POST_REVIEWED, action := .review,
    workflow_type := some .POST_REVIEW, requires_assignment := true, for_executable := some true },
  { from_status := .IN_APPROVAL, to_status := .APPROVED, action := .approve,
    workflow_type := some .APPROVAL, requires_assignment := true,
    version_bump := some "major", archives_version := true, for_executable := some false },
  { from_status := .IN_PRE_APPROVAL, to_status := .PRE_APPROVED, action := .approve,
    workflow_type := some .PRE_APPROVAL, requires_assignment := true,
    version_bump := some "major", archives_version := true, for_executable := some true },
  { from_status := .IN_POST_APPROVAL, to_status := .POST_APPROVED, action := .approve,
    workflow_type := some .POST_APPROVAL, requires_assignment := true,
    version_bump := some "major", archives_version := true, for_executable := some true },
  { from_status := .IN_APPROVAL, to_status := .REVIEWED, action := .reject,
    workflow_type := some .APPROVAL, requires_assignment := true, for_executable := some false },
  { from_status := .IN_PRE_APPROVAL, to_status := .PRE_REVIEWED, action := .reject,
    workflow_type := some .PRE_APPROVAL, requires_assignment := true, for_executable := some true },
  { from_status := .IN_POST_APPROVAL, to_status := .POST_REVIEWED, action := .reject,
    workflow_type := some .POST_APPROVAL, requires_assignment := true, for_executable := some true },
  { from_status := .PRE_APPROVED, to_status := .IN_EXECUTION, action := .release,
    for_executable := some true },
  { from_status := .POST_REVIEWED, to_status := .IN_EXECUTION, action := .revert,
    for_executable := some true },
  { from_status := .POST_APPROVED, to_status := .CLOSED, action := .close,
    clears_owner := true, for_executable := some true }
]

/-- `WorkflowEngine._infer_phase` from `workflow.py`. -/
def infer_phase (status : Status) : Option ExecutionPhase :=
  if status = .DRAFT ∨ status = .IN_PRE_REVIEW ∨ status = .PRE_REVIEWED ∨
      status = .IN_PRE_APPROVAL ∨ status = .PRE_APPROVED then
    some .pre_release
  else if status = .IN_EXECUTION ∨ status = .IN_POST_REVIEW ∨ status = .POST_REVIEWED ∨
      status = .IN_POST_APPROVAL ∨ status = .POST_APPROVED ∨ status = .CLOSED then
    some .post_release
  else
    none

/-- The per-candidate filter used in `WorkflowEngine.get_transition`: the
executable flag must match `for_executable` (when specified), and when a phase
is required the document must be executable and its phase (explicit, or else
inferred from the status) must equal the required phase. -/
def transitionMatches (t : StatusTransition) (current : Status) (is_executable : Bool)
    (phase : Option ExecutionPhase) : Bool :=
  (match t.for_executable with
    | some b => b = is_executable
    | none => true) &&
  (match t.requires_phase with
    | some rp =>
      is_executable &&
        (match phase with
          | some p => some p = some rp
          | none => infer_phase current = some rp)
    | none => true)

/-- `WorkflowEngine.get_transition` from `workflow.py`: look up the candidates
for `(current_status, action)`, filter by executable flag and phase, and
succeed only when exactly one record matches. -/
def get_transition (current : Status) (action : Action) (is_executable : Bool)
    (phase : Option ExecutionPhase) : Option StatusTransition :=
  let candidates := WORKFLOW_TRANSITIONS.filter
    (fun t => t.from_status = current ∧ t.action = action)
  let matching := candidates.filter
    (fun t => transitionMatches t current is_executable phase)
  match matching with
  | [t] => some t
  | _ => none

/-- `WorkflowEngine.is_review_status` from `workflow.py`. -/
def is_review_status (s : Status) : Bool :=
  s = .IN_REVIEW ∨ s = .IN_PRE_REVIEW ∨ s = .IN_POST_REVIEW

/-- `WorkflowEngine.is_approval_status` from `workflow.py`. -/
def is_approval_status (s : Status) : Bool :=
  s = .IN_APPROVAL ∨ s = .IN_PRE_APPROVAL ∨ s = .IN_POST_APPROVAL

/-- `WorkflowEngine.get_reviewed_status` from `workflow.py`. -/
def get_reviewed_status : Status → Option Status
  | .IN_REVIEW => some .REVIEWED
  | .IN_PRE_REVIEW => some .PRE_REVIEWED
  | .IN_POST_REVIEW => some .POST_REVIEWED
  | _ => none

/-- `WorkflowEngine.get_approved_status` from `workflow.py`. -/
def get_approved_status : Status → Option Status
  | .IN_APPROVAL => some .APPROVED
  | .IN_PRE_APPROVAL => some .PRE_APPROVED
  | .IN_POST_APPROVAL => some .POST_APPROVED
  | _ => none

/-- `WorkflowEngine.get_rejection_target` from `workflow.py`. -/
def get_rejection_target : Status → Option Status
  | .IN_APPROVAL => some .REVIEWED
  | .IN_PRE_APPROVAL => some .PRE_REVIEWED
  | .IN_POST_APPROVAL => some .POST_REVIEWED
  | _ => none

/-- The raw `TRANSITIONS` dictionary from `qms_config.py`, used by
`cmd_route` as a redundant validation. -/
def TRANSITIONS : Status → List Status
  | .DRAFT => [.IN_REVIEW, .IN_PRE_REVIEW, .IN_POST_REVIEW]
  | .IN_REVIEW => [.REVIEWED]
  | .REVIEWED => [.IN_REVIEW, .IN_APPROVAL]
  | .IN_APPROVAL => [.APPROVED, .REVIEWED]
  | .APPROVED => [.EFFECTIVE]
  | .EFFECTIVE => []
  | .IN_PRE_REVIEW => [.PRE_REVIEWED]
  | .PRE_REVIEWED => [.IN_PRE_REVIEW, .IN_PRE_APPROVAL]
  | .IN_PRE_APPROVAL => [.PRE_APPROVED, .PRE_REVIEWED]
  | .PRE_APPROVED => [.IN_EXECUTION]
  | .IN_EXECUTION => [.IN_POST_REVIEW]
  | .IN_POST_REVIEW => [.POST_REVIEWED]
  | .POST_REVIEWED => [.IN_POST_REVIEW, .IN_POST_APPROVAL, .IN_EXECUTION]
  | .IN_POST_APPROVAL => [.POST_APPROVED, .POST_REVIEWED]
  | .POST_APPROVED => [.CLOSED]
  | .CLOSED => []
  | .RETIRED => []

/-- Modelled from the spec: `check_approval_gate`.  `commands/route.py`
imports this function from `qms_meta`, but no definition exists in the source
tree.  Per the spec (§4.3 "Approval gate", §8 boundary behaviours and the
glossary), routing to approval requires that the latest completed review
cycle ended with outcome RECOMMEND: the gate passes iff the current cycle
recorded at least one outcome and every recorded outcome is RECOMMEND. -/
def check_approval_gate (meta : Meta) : Bool :=
  !meta.review_outcomes.isEmpty &&
    meta.review_outcomes.all (fun p => p.2 = ReviewOutcome.RECOMMEND)

/-- Key lookup in an association list, modelling Python `dict` access via
`d.get(k)` (keys in the modelled dictionaries are unique). -/
def lookupKey {α : Type} (k : String) : List (String × α) → Option α
  | [] => none
  | (k', v) :: rest => if k' = k then some v else lookupKey k rest

/-- The hardcoded administrator set from `qms_auth.py`. -/
def HARDCODED_ADMINS : List String := ["lead", "claude"]

/-- `USER_GROUPS` from `qms_config.py` (the CR-036 group table, keyed by the
singular group names). -/
def USER_GROUPS : List (String × List String) := [
  ("administrator", ["lead", "claude"]),
  ("initiator", []),
  ("quality", ["qa"]),
  ("reviewer", ["tu_ui", "tu_scene", "tu_sketch", "tu_sim", "bu"])
]

/-- `GROUP_HIERARCHY` from `qms_config.py`. -/
def GROUP_HIERARCHY : List String := ["administrator", "initiator", "quality", "reviewer"]

/-- A `PERMISSIONS` table entry from `qms_config.py`. -/
structure PermEntry where
  groups : List String
  owner_only : Bool := false
  assigned_only : Bool := false
  deriving DecidableEq, Repr

/-- The `PERMISSIONS` table from `qms_config.py`.  Commands such as `cancel`,
`fix`, `history`, `comments`, `namespace` and `user` have no entry. -/
def PERMISSIONS : List (String × PermEntry) := [
  ("create", { groups := ["initiator"] }),
  ("checkout", { groups := ["initiator"] }),
  ("checkin", { groups := ["initiator"], owner_only := true }),
  ("route", { groups := ["initiator"], owner_only := true }),
  ("assign", { groups := ["quality"] }),
  ("review", { groups := ["initiator", "quality", "reviewer"], assigned_only := true }),
  ("approve", { groups := ["quality", "reviewer"], assigned_only := true }),
  ("reject", { groups := ["quality", "reviewer"], assigned_only := true }),
  ("release", { groups := ["initiator"], owner_only := true }),
  ("revert", { groups := ["initiator"], owner_only := true }),
  ("close", { groups := ["initiator"], owner_only := true }),
  ("read", { groups := ["initiator", "quality", "reviewer"] }),
  ("status", { groups := ["initiator", "quality", "reviewer"] }),
  ("inbox", { groups := ["initiator", "quality", "reviewer"] }),
  ("workspace", { groups := ["initiator", "quality", "reviewer"] })
]

/-- The agent files under `.claude/agents/`, modelled as a map from user name
to the `group:` frontmatter value of that user's agent file. -/
def Agents := List (String × String)

/-- `read_agent_group` from `qms_auth.py`: the `group:` value of the user's
agent file, when the file exists. -/
def read_agent_group (agents : Agents) (user : String) : Option String :=
  lookupKey user agents

/-- `get_user_group` from `qms_auth.py`: hardcoded admins resolve to
`administrator`; otherwise a truthy agent-file group wins; otherwise
`unknown`. -/
def get_user_group (agents : Agents) (user : String) : String :=
  if user ∈ HARDCODED_ADMINS then "administrator"
  else match read_agent_group agents user with
    | some g => if g ≠ "" then g else "unknown"
    | none => "unknown"

/-- `verify_user_identity` from `qms_auth.py` (true = valid user). -/
def verify_user_identity (agents : Agents) (user : String) : Bool :=
  if user ∈ HARDCODED_ADMINS then true
  else match read_agent_group agents user with
    | some g =>
      if g ≠ "" then
        g = "administrator" ∨ g = "initiator" ∨ g = "quality" ∨ g = "reviewer"
      else false
    | none => false

/-- Index of a group in `GROUP_HIERARCHY` (`list.index`, as `Option`). -/
def idxOf (x : String) : List String → Option Nat
  | [] => none
  | g :: gs => if g = x then some 0 else (idxOf x gs).map (· + 1)

/-- `has_group_permission` from `qms_auth.py`: direct membership, or a
strictly higher position in the group hierarchy than some allowed group. -/
def has_group_permission (user_group : String) (allowed_groups : List String) : Bool :=
  if user_group ∈ allowed_groups then true
  else match idxOf user_group GROUP_HIERARCHY with
    | some user_level =>
      allowed_groups.any (fun a =>
        match idxOf a GROUP_HIERARCHY with
        | some allowed_level => user_level < allowed_level
        | none => false)
    | none => false

/-- `check_permission` from `qms_auth.py`.  Returns `(allowed, error)`.
A command absent from `PERMISSIONS` is let through with an empty error.
`doc_owner = none` models both "argument not passed" and a null owner (both
falsy in `if perm.get("owner_only") and doc_owner and doc_owner != user`);
an owner of `some ""` is likewise falsy. -/
def check_permission (agents : Agents) (user command : String)
    (doc_owner : Option String) (assigned_users : Option (List String)) : Bool × String :=
  match lookupKey command PERMISSIONS with
  | none => (true, "")
  | some perm =>
    let user_group := get_user_group agents user
    let ownerBlocks : Bool :=
      match doc_owner with
      | some o => o ≠ "" && o ≠ user
      | none => false
    let assignedBlocks : Bool :=
      match assigned_users with
      | some l => user ∉ l
      | none => false
    if ¬ has_group_permission user_group perm.groups then
      (false, "Permission Denied: group " ++ user_group ++ " may not run " ++ command)
    else if perm.owner_only && ownerBlocks then
      (false, "Permission Denied: not the responsible user")
    else if perm.assigned_only && assignedBlocks then
      (false, "Permission Denied: not assigned")
    else
      (true, "")

/-! ## Document I/O (`qms_io.py`)

The frontmatter framing (`---` delimiters, `lstrip`) is implemented in
`qms_io.py` and is embedded here at the character level over `List Char`.
The YAML library itself is out of scope per the spec ("treated as a library
dependency"); it is modelled by `yamlDumpL`/`yamlLoadL`, a dump/load pair for
flat string maps producing one `key: value` line per entry, matching
`yaml.dump(..., default_flow_style=False, sort_keys=False)` on such maps. -/

/-- Boolean prefix test on character lists. -/
def isPre : List Char → List Char → Bool
  | [], _ => true
  | _ :: _, [] => false
  | a :: as, b :: bs => a = b && isPre as bs

/-- Leftmost split at a separator: `some (before, after)` where `before` is
the text preceding the first occurrence of `sep` and `after` the text
following it, or `none` when `sep` does not occur. -/
def splitFirst (sep : List Char) : List Char → Option (List Char × List Char)
  | [] => none
  | c :: cs =>
    if isPre sep (c :: cs) then some ([], (c :: cs).drop sep.length)
    else
      match splitFirst sep cs with
      | some (a, b) => some (c :: a, b)
      | none => none

/-- Python `s.split(sep, 2)`: at most three parts, the remainder unsplit. -/
def pySplit2 (sep s : List Char) : List (List Char) :=
  match splitFirst sep s with
  | none => [s]
  | some (a, r) =>
    match splitFirst sep r with
    | none => [a, r]
    | some (b, r2) => [a, b, r2]

/-- Substring test on character lists (Python `in`). -/
def containsSub (needle : List Char) : List Char → Bool
  | [] => isPre needle []
  | c :: cs => isPre needle (c :: cs) || containsSub needle cs

/-- Split a character list at every occurrence of one character. -/
def splitAllChar (c : Char) : List Char → List (List Char)
  | [] => [[]]
  | a :: as =>
    if a = c then [] :: splitAllChar c as
    else
      match splitAllChar c as with
      | l :: ls => (a :: l) :: ls
      | [] => [[a]]

/-- Library model: YAML dump of a flat string map, one `key: value` line per
entry, ending in a newline. -/
def yamlDumpL (fm : List (String × String)) : List Char :=
  (fm.map (fun kv => kv.1.data ++ (": ").data ++ kv.2.data ++ ['\n'])).flatten

/-- Library model: YAML load of a flat string map; blank and malformed lines
are ignored. -/
def yamlLoadL (s : List Char) : List (String × String) :=
  (splitAllChar '\n' s).filterMap (fun line =>
    if line = [] then none
    else
      match splitFirst (": ").data line with
      | some (k, v) => some (String.mk k, String.mk v)
      | none => none)

/-- `parse_frontmatter` from `qms_io.py`: content not starting with `---`, or
with fewer than two `---` occurrences, is returned whole with an empty map;
otherwise the part between the first two `---` occurrences is YAML-loaded and
the remainder, with leading newlines stripped (`lstrip("\n")`), is the body. -/
def parse_frontmatter (content : List Char) : List (String × String) × List Char :=
  if isPre ("---").data content then
    match pySplit2 ("---").data content with
    | [_, y, b] => (yamlLoadL y, b.dropWhile (fun c => c = '\n'))
    | _ => ([], content)
  else
    ([], content)

/-- `serialize_frontmatter` from `qms_io.py`:
`f"---\n{yaml_str}---\n\n{body}"`. -/
def serialize_frontmatter (fm : List (String × String)) (body : List Char) : List Char :=
  ("---").data ++ ['\n'] ++ yamlDumpL fm ++ ("---").data ++ ['\n', '\n'] ++ body

/-- `AUTHOR_FRONTMATTER_FIELDS` from `qms_config.py`. -/
def AUTHOR_FRONTMATTER_FIELDS : List String := ["title", "revision_summary"]

/-- `filter_author_frontmatter` from `qms_io.py`: keep only the
author-maintained fields. -/
def filter_author_frontmatter (fm : List (String × String)) : List (String × String) :=
  fm.filter (fun kv => kv.1 ∈ AUTHOR_FRONTMATTER_FIELDS)

/-- The content written by `write_document_minimal` from `qms_io.py`. -/
def write_minimal_content (fm : List (String × String)) (body : List Char) : List Char :=
  serialize_frontmatter (filter_author_frontmatter fm) body

/-- The `read → writeMinimal → read` round trip of the spec: parse the
content written by the minimal writer for a document whose parsed form was
`(fm, body)`. -/
def readBackMinimal (fm : List (String × String)) (body : List Char) :
    List (String × String) × List Char :=
  parse_frontmatter (write_minimal_content fm body)

/-! ## Documents, tasks, audit events and system state -/

/-- A parsed document: frontmatter map and body (`qms_io.read_document`). -/
structure Document where
  frontmatter : List (String × String)
  body : String
  deriving DecidableEq, Repr

/-- The document as rewritten by `write_document_minimal`. -/
def minimalDoc (d : Document) : Document :=
  { frontmatter := filter_author_frontmatter d.frontmatter, body := d.body }

/-- An inbox task file `task-<docId>-<workflow_lower>-v<version>.md` in a
user's inbox, identified by its filename components. -/
structure Task where
  user : String
  doc_id : String
  wf : String
  ver : String
  deriving DecidableEq, Repr

/-- One line of the `.audit/<type>/<docId>.jsonl` log (`qms_audit.py`).
Timestamps are not modelled. -/
structure AuditEvent where
  event : String
  user : String
  version : String
  comment : Option String := none
  outcome : Option String := none
  from_status : Option String := none
  to_status : Option String := none
  from_version : Option String := none
  reason : Option String := none
  deriving DecidableEq, Repr

/-- `get_comments` from `qms_audit.py` with the default event types
`[REVIEW, REJECT]`: events of those types carrying a non-empty comment,
filtered to `version` when that argument is truthy (`""` models both `None`
and the empty string, which Python treats alike here). -/
def get_comments (events : List AuditEvent) (version : String) : List AuditEvent :=
  events.filter (fun e =>
    (e.event = "REVIEW" ∨ e.event = "REJECT") &&
    (match e.comment with
      | some c => c ≠ ""
      | none => false) &&
    (version = "" || e.version = version))

/-- The filesystem and metadata state relevant to a single document:
its draft and effective files, archived versions, metadata, audit log,
inbox task files across all users, and workspace copies across all users. -/
structure Sys where
  doc_id : String
  meta : Option Meta
  draft : Option Document
  effective : Option Document
  archive : List (Version × Document)
  audit : List AuditEvent
  tasks : List Task
  workspaces : List (String × Document)
  deriving DecidableEq, Repr

/-! ## Command layer (`src/commands/*.py`)

Each `cmd_*` definition mirrors the corresponding registry command.  A
refusal prints an error and returns exit code 1 without touching the
filesystem; this is modelled as `(1, s)` with the state unchanged.  The
`agents` parameter models the `.claude/agents/` directory consulted by the
identity layer. -/

/-- `VALID_USERS` from `qms_config.py`. -/
def VALID_USERS : List String :=
  ["lead", "claude", "qa", "bu", "tu_ui", "tu_scene", "tu_sketch", "tu_sim"]

/-- The string value of a review outcome. -/
def ReviewOutcome.str : ReviewOutcome → String
  | .RECOMMEND => "RECOMMEND"
  | .UPDATES_REQUIRED => "UPDATES_REQUIRED"

/-- `f"{major + 1}.0"`: the major version bump performed on approval. -/
def bumpMajor (v : Version) : Version := ⟨v.major + 1, 0⟩

/-- Replace existing task files and write one per assignee, modelling the
per-assignee `task_path.write_text` loop (same filename overwrites). -/
def upsertTasks (tasks : List Task) (doc_id wf ver : String) (assignees : List String) :
    List Task :=
  tasks.filter (fun t => ¬(t.doc_id = doc_id ∧ t.wf = wf ∧ t.ver = ver ∧ t.user ∈ assignees))
    ++ assignees.map (fun u => { user := u, doc_id := doc_id, wf := wf, ver := ver })

/-- Arguments of the `route` command. -/
structure RouteArgs where
  review : Bool
  approval : Bool
  assign : Option (List String)
  retire : Bool
  deriving DecidableEq, Repr

/-- The `--retire` marking (`meta["retiring"] = True` in `cmd_route`). -/
def retire_mark (retire : Bool) (m : Meta) : Meta :=
  if retire then { m with retiring := true } else m

/-- The state checks and metadata decision of `cmd_route` after the identity,
permission and draft-existence guards: checked-out and owner guards, flag
dispatch with the approval gate, the engine lookup, `--retire` handling,
assignee defaulting, and the redundant `TRANSITIONS` validation.  Returns
the matched transition, the new metadata and the assignees on success. -/
def route_decision (user : String) (a : RouteArgs) (m : Meta) :
    Option (StatusTransition × Meta × List String) :=
  if m.checked_out then none
  else if (match m.responsible_user with
    | some o => o ≠ "" && o ≠ user
    | none => false) then none
  else
    let actOpt : Option Action :=
      if a.review then some .route_review
      else if a.approval then
        if check_approval_gate m then some .route_approval else none
      else none
    match actOpt with
    | none => none
    | some act =>
      match get_transition m.status act m.executable m.execution_phase with
      | none => none
      | some t =>
        let wfOk : Bool :=
          t.workflow_type = some WorkflowType.APPROVAL ∨
            t.workflow_type = some WorkflowType.POST_APPROVAL
        if a.retire && !wfOk then none
        else if a.retire && m.version.major < 1 then none
        else
          let assignees := match a.assign with
            | some l => if l = [] then ["qa"] else l
            | none => ["qa"]
          if t.to_status ∉ TRANSITIONS m.status then none
          else some (t, update_meta_route (retire_mark a.retire m) t.to_status assignees,
            assignees)

/-- `cmd_route` from `commands/route.py`. -/
def cmd_route (agents : Agents) (user : String) (a : RouteArgs) (s : Sys) : Nat × Sys :=
  if ¬ verify_user_identity agents user then (1, s)
  else if ¬ (check_permission agents user "route" none none).1 then (1, s)
  else if s.draft = none then (1, s)
  else
    let m := metaOr s.meta
    match route_decision user a m with
    | none => (1, s)
    | some (t, m2, assignees) =>
      let wfType : String := match t.workflow_type with
        | some w => w.str
        | none => "UNKNOWN"
      let wfLower : String := match t.workflow_type with
        | some w => w.lower
        | none => "unknown"
      let routeEvent : AuditEvent :=
        if containsSub ("REVIEW").data wfType.data then
          { event := "ROUTE_REVIEW", user := user, version := m.version.str }
        else
          { event := "ROUTE_APPROVAL", user := user, version := m.version.str }
      let audit2 := s.audit ++
        [{ event := "STATUS_CHANGE", user := user, version := m.version.str,
           from_status := some m.status.str, to_status := some t.to_status.str },
         routeEvent]
      (0, { s with meta := some m2, audit := audit2,
                   tasks := upsertTasks s.tasks s.doc_id wfLower m.version.str assignees })

/-- The metadata effect of a review submission (`commands/review.py` lines
133-150): remove the reviewer from `pending_assignees`, transition to the
reviewed status when no assignee remains, and record the outcome. -/
def review_meta (m : Meta) (user : String) (outcome : ReviewOutcome) : Meta :=
  let remaining := m.pending_assignees.filter (fun u => u ≠ user)
  let new_status := if remaining = [] then get_reviewed_status m.status else none
  record_review_outcome (update_meta_review_complete m remaining new_status) user outcome

/-- The audit events appended by a review submission: the REVIEW event, plus
the STATUS_CHANGE event when the last pending assignee submits. -/
def review_audit (audit : List AuditEvent) (user : String) (m : Meta)
    (outcome : ReviewOutcome) (comment : String) : List AuditEvent :=
  let audit1 := audit ++
    [{ event := "REVIEW", user := user, version := m.version.str,
       outcome := some outcome.str, comment := some comment }]
  if m.pending_assignees.filter (fun u => u ≠ user) = [] then
    match get_reviewed_status m.status with
    | some ns => audit1 ++
        [{ event := "STATUS_CHANGE", user := user, version := m.version.str,
           from_status := some m.status.str, to_status := some ns.str }]
    | none => audit1
  else audit1

/-- `cmd_review` from `commands/review.py`. -/
def cmd_review (agents : Agents) (user : String) (recommend request_updates : Bool)
    (comment : String) (s : Sys) : Nat × Sys :=
  if ¬ verify_user_identity agents user then (1, s)
  else if ¬ (check_permission agents user "review" none none).1 then (1, s)
  else if comment = "" then (1, s)
  else
    let outcomeOpt : Option ReviewOutcome :=
      if recommend then some .RECOMMEND
      else if request_updates then some .UPDATES_REQUIRED
      else none
    match outcomeOpt with
    | none => (1, s)
    | some outcome =>
      if s.draft = none then (1, s)
      else
        let m := metaOr s.meta
        if ¬ is_review_status m.status then (1, s)
        else if user ∉ m.pending_assignees then (1, s)
        else
          (0, { s with meta := some (review_meta m user outcome),
                       audit := review_audit s.audit user m outcome comment,
                       tasks := s.tasks.filter (fun t =>
                         ¬(t.user = user ∧ t.doc_id = s.doc_id)) })

/-- `cmd_approve` from `commands/approve.py`. -/
def cmd_approve (agents : Agents) (user : String) (s : Sys) : Nat × Sys :=
  if ¬ verify_user_identity agents user then (1, s)
  else if ¬ (check_permission agents user "approve" none none).1 then (1, s)
  else
    match s.draft with
    | none => (1, s)
    | some draft =>
      let m := metaOr s.meta
      if ¬ is_approval_status m.status then (1, s)
      else if user ∉ m.pending_assignees then (1, s)
      else
        let audit1 := s.audit ++
          [{ event := "APPROVE", user := user, version := m.version.str }]
        let tasks2 := s.tasks.filter (fun t => ¬(t.user = user ∧ t.doc_id = s.doc_id))
        let remaining := m.pending_assignees.filter (fun u => u ≠ user)
        if remaining = [] then
          match get_approved_status m.status with
          | none => (0, { s with audit := audit1, tasks := tasks2 })
          | some ns =>
            let new_version := bumpMajor m.version
            let archive1 := s.archive ++ [(m.version, draft)]
            let audit2 := audit1 ++
              [{ event := "STATUS_CHANGE", user := user, version := new_version.str,
                 from_status := some m.status.str, to_status := some ns.str }]
            if m.retiring then
              let archive2 := archive1 ++ [(new_version, minimalDoc draft)]
              let m2 :=
                { update_meta_approval m .RETIRED (some new_version) true with retiring := false }
              let audit3 := audit2 ++
                [{ event := "RETIRE", user := user, version := new_version.str,
                   from_version := some m.version.str },
                 { event := "STATUS_CHANGE", user := user, version := new_version.str,
                   from_status := some ns.str, to_status := some Status.RETIRED.str }]
              (0, { s with meta := some m2, draft := none, effective := none,
                           archive := archive2, audit := audit3, tasks := tasks2 })
            else if ns = .APPROVED then
              let m2 := update_meta_approval m .EFFECTIVE (some new_version) true
              let audit3 := audit2 ++
                [{ event := "EFFECTIVE", user := user, version := new_version.str,
                   from_version := some m.version.str },
                 { event := "STATUS_CHANGE", user := user, version := new_version.str,
                   from_status := some ns.str, to_status := some Status.EFFECTIVE.str }]
              (0, { s with meta := some m2, draft := none,
                           effective := some (minimalDoc draft),
                           archive := archive1, audit := audit3, tasks := tasks2 })
            else
              let m2 := update_meta_approval m ns (some new_version) false
              (0, { s with meta := some m2, archive := archive1, audit := audit2,
                           tasks := tasks2 })
        else
          (0, { s with meta := some { m with pending_assignees := remaining },
                       audit := audit1, tasks := tasks2 })

/-- `cmd_reject` from `commands/reject.py`. -/
def cmd_reject (agents : Agents) (user : String) (comment : String) (s : Sys) : Nat × Sys :=
  if ¬ verify_user_identity agents user then (1, s)
  else if ¬ (check_permission agents user "reject" none none).1 then (1, s)
  else if comment = "" then (1, s)
  else if s.draft = none then (1, s)
  else
    let m := metaOr s.meta
    if ¬ is_approval_status m.status then (1, s)
    else if user ∉ m.pending_assignees then (1, s)
    else
      let audit1 := s.audit ++
        [{ event := "REJECT", user := user, version := m.version.str,
           comment := some comment }]
      let step : Meta × List AuditEvent :=
        match get_rejection_target m.status with
        | some ns =>
          ({ update_meta_approval m ns none false with pending_assignees := [] },
           audit1 ++
             [{ event := "STATUS_CHANGE", user := user, version := m.version.str,
                from_status := some m.status.str, to_status := some ns.str }])
        | none => ({ m with pending_assignees := [] }, audit1)
      (0, { s with meta := some step.1, audit := step.2,
                   tasks := s.tasks.filter (fun t =>
                     ¬(t.doc_id = s.doc_id ∧ containsSub ("approval").data t.wf.data)) })

/-- `cmd_cancel` from `commands/cancel.py`.  The command begins with
`if user not in USER_GROUPS["initiators"]`, an indexing of the
`qms_config.USER_GROUPS` dictionary whose keys are the singular group names;
a missing key raises `KeyError` in Python, modelled as `Except.error`. -/
def cmd_cancel (user : String) (confirm : Bool) (s : Sys) : Except String (Nat × Sys) :=
  match lookupKey "initiators" USER_GROUPS with
  | none => .error "KeyError: initiators"
  | some initiators =>
    if user ∉ initiators then .ok (1, s)
    else
      match s.meta with
      | none => .ok (1, s)
      | some m =>
        if m.version.major ≥ 1 then .ok (1, s)
        else if m.checked_out then .ok (1, s)
        else if ¬ confirm then .ok (1, s)
        else .ok (0, { s with
          draft := none
          effective := none
          meta := none
          audit := []
          workspaces := s.workspaces.filter (fun w => w.1 ∉ ["lead", "claude", "qa"])
          tasks := s.tasks.filter (fun t => t.doc_id ≠ s.doc_id) })

/-- The frontmatter status values that hide comments in `cmd_comments`. -/
def REVIEW_STATES : List String := ["IN_REVIEW", "IN_PRE_REVIEW", "IN_POST_REVIEW"]

/-- `cmd_comments` from `commands/comments.py`: reads `status` and `version`
from the on-disk frontmatter of the draft (or else the effective file),
refuses while that status is a review state, and otherwise returns the
comment events (filtered by the `--version` argument when given, else by the
frontmatter version).  Returns the exit code and the comments produced. -/
def cmd_comments (agents : Agents) (user : String) (args_version : String) (s : Sys) :
    Nat × List AuditEvent :=
  if ¬ verify_user_identity agents user then (1, [])
  else
    let fmOpt : Option (List (String × String)) :=
      match s.draft with
      | some d => some d.frontmatter
      | none =>
        match s.effective with
        | some d => some d.frontmatter
        | none => none
    match fmOpt with
    | none => (1, [])
    | some fm =>
      let status := (lookupKey "status" fm).getD ""
      let version := (lookupKey "version" fm).getD ""
      if status ∈ REVIEW_STATES then (1, [])
      else if args_version ≠ "" then (0, get_comments s.audit args_version)
      else (0, get_comments s.audit version)

/-- `cmd_checkout` from `commands/checkout.py`. -/
def cmd_checkout (agents : Agents) (user today : String) (s : Sys) : Nat × Sys :=
  if ¬ verify_user_identity agents user then (1, s)
  else if ¬ (check_permission agents user "checkout" none none).1 then (1, s)
  else
    let m := metaOr s.meta
    match s.draft with
    | some d =>
      if m.checked_out then (1, s)
      else
        let m2 := update_meta_checkout m user today none
        (0, { s with meta := some m2,
                     audit := s.audit ++
                       [{ event := "CHECKOUT", user := user, version := m.version.str }],
                     workspaces := s.workspaces.filter (fun w => w.1 ≠ user)
                       ++ [(user, minimalDoc d)] })
    | none =>
      match s.effective with
      | some d =>
        let new_version : Version := ⟨m.version.major, 1⟩
        let m2 := { update_meta_checkout m user today (some new_version) with
          status := Status.DRAFT
          effective_version := some m.version }
        (0, { s with meta := some m2,
                     archive := s.archive ++ [(m.version, d)],
                     audit := s.audit ++
                       [{ event := "CHECKOUT", user := user, version := new_version.str,
                          from_version := some m.version.str }],
                     draft := some (minimalDoc d),
                     workspaces := s.workspaces.filter (fun w => w.1 ≠ user)
                       ++ [(user, minimalDoc d)] })
      | none => (1, s)

/-- `cmd_checkin` from `commands/checkin.py`. -/
def cmd_checkin (agents : Agents) (user : String) (s : Sys) : Nat × Sys :=
  if ¬ verify_user_identity agents user then (1, s)
  else if ¬ (check_permission agents user "checkin" none none).1 then (1, s)
  else
    match lookupKey user s.workspaces with
    | none => (1, s)
    | some ws =>
      let m := metaOr s.meta
      if ¬ (check_permission agents user "checkin" m.responsible_user none).1 then (1, s)
      else
        (0, { s with
          draft := some (minimalDoc ws)
          meta := some (update_meta_checkin m)
          audit := s.audit ++
            [{ event := "CHECKIN", user := user, version := m.version.str }]
          workspaces := s.workspaces.filter (fun w => w.1 ≠ user) })

/-- `cmd_release` from `commands/release.py`. -/
def cmd_release (agents : Agents) (user : String) (s : Sys) : Nat × Sys :=
  if ¬ verify_user_identity agents user then (1, s)
  else if ¬ (check_permission agents user "release" none none).1 then (1, s)
  else if s.draft = none then (1, s)
  else
    let m := metaOr s.meta
    if ¬ m.executable then (1, s)
    else if ¬ (check_permission agents user "release" m.responsible_user none).1 then (1, s)
    else if m.status ≠ .PRE_APPROVED then (1, s)
    else
      (0, { s with
        meta := some { m with status := .IN_EXECUTION, execution_phase := some .post_release }
        audit := s.audit ++
          [{ event := "RELEASE", user := user, version := m.version.str },
           { event := "STATUS_CHANGE", user := user, version := m.version.str,
             from_status := some Status.PRE_APPROVED.str,
             to_status := some Status.IN_EXECUTION.str }] })

/-- `cmd_revert` from `commands/revert.py`. -/
def cmd_revert (agents : Agents) (user reason : String) (s : Sys) : Nat × Sys :=
  if ¬ verify_user_identity agents user then (1, s)
  else if ¬ (check_permission agents user "revert" none none).1 then (1, s)
  else if reason = "" then (1, s)
  else if s.draft = none then (1, s)
  else
    let m := metaOr s.meta
    if ¬ (check_permission agents user "revert" m.responsible_user none).1 then (1, s)
    else if m.status ≠ .POST_REVIEWED then (1, s)
    else
      (0, { s with
        meta := some { m with status := .IN_EXECUTION }
        audit := s.audit ++
          [{ event := "REVERT", user := user, version := m.version.str,
             reason := some reason }] })

/-- `cmd_close` from `commands/close.py`. -/
def cmd_close (agents : Agents) (user : String) (s : Sys) : Nat × Sys :=
  if ¬ verify_user_identity agents user then (1, s)
  else if ¬ (check_permission agents user "close" none none).1 then (1, s)
  else
    match s.draft with
    | none => (1, s)
    | some draft =>
      let m := metaOr s.meta
      if ¬ m.executable then (1, s)
      else if ¬ (check_permission agents user "close" m.responsible_user none).1 then (1, s)
      else if m.status ≠ .POST_APPROVED then (1, s)
      else
        (0, { s with
          draft := none
          effective := some (minimalDoc draft)
          meta := some { m with
            status := .CLOSED
            responsible_user := none
            checked_out := false
            checked_out_date := none
            pending_assignees := [] }
          audit := s.audit ++
            [{ event := "CLOSE", user := user, version := m.version.str },
             { event := "STATUS_CHANGE", user := user, version := m.version.str,
               from_status := some m.status.str, to_status := some Status.CLOSED.str }]
          workspaces := s.workspaces.filter (fun w => w.1 ≠ user) })

/-- The sequential assignee-adding loop of `cmd_assign`: users already
pending are skipped; each added user gets a task file. -/
def assign_fold (doc_id wf ver : String) :
    List String → List String × List Task → List String × List Task
  | [], acc => acc
  | u :: us, (pending, tasks) =>
    if u ∈ pending then assign_fold doc_id wf ver us (pending, tasks)
    else
      assign_fold doc_id wf ver us
        (pending ++ [u], upsertTasks tasks doc_id wf ver [u])

/-- `cmd_assign` from `commands/assign.py`. -/
def cmd_assign (agents : Agents) (user : String) (assignees : List String) (s : Sys) :
    Nat × Sys :=
  if ¬ verify_user_identity agents user then (1, s)
  else if ¬ (check_permission agents user "assign" none none).1 then (1, s)
  else if assignees = [] then (1, s)
  else if ¬ assignees.all (fun u => u ∈ VALID_USERS) then (1, s)
  else if s.draft = none then (1, s)
  else
    let m := metaOr s.meta
    let wfOpt : Option String :=
      if m.status = .IN_PRE_REVIEW then some "pre_review"
      else if m.status = .IN_POST_REVIEW then some "post_review"
      else if m.status = .IN_REVIEW then some "review"
      else if m.status = .IN_PRE_APPROVAL then some "pre_approval"
      else if m.status = .IN_POST_APPROVAL then some "post_approval"
      else if m.status = .IN_APPROVAL then some "approval"
      else none
    match wfOpt with
    | none => (1, s)
    | some wf =>
      let res := assign_fold s.doc_id wf m.version.str assignees
        (m.pending_assignees, s.tasks)
      (0, { s with meta := some { m with pending_assignees := res.1 }, tasks := res.2 })

/-! ## Command sequences and reachable states

`stepSys` runs one CLI command against the state.  Commands are run under an
agents directory that maps the acting user to the `administrator` group: the
group hierarchy makes `administrator` pass every group-level check that any
group passes, while the ownership and assignment predicates compare the same
user, so every state transition the real system can perform (under any agents
directory) is performed by `stepSys`, and a refused command leaves the state
unchanged.  Invariants proved over all `stepSys` runs therefore hold for all
real runs.  `cancel` is absent because `commands/cancel.py` raises `KeyError`
before mutating anything (see `cmd_cancel`), and `fix` because it rewrites
only the frontmatter of effective documents, never `.meta`. -/

/-- One CLI invocation, with its arguments. -/
inductive MCmd where
  | checkout (user today : String)
  | checkin (user : String)
  | route (user : String) (a : RouteArgs)
  | review (user : String) (recommend request_updates : Bool) (comment : String)
  | approve (user : String)
  | reject (user : String) (comment : String)
  | release (user : String)
  | revert (user reason : String)
  | close (user : String)
  | assign (user : String) (assignees : List String)
  deriving DecidableEq, Repr

/-- Run one command (see the section comment for the agents-directory choice). -/
def stepSys (c : MCmd) (s : Sys) : Sys :=
  match c with
  | .checkout u t => (cmd_checkout [(u, "administrator")] u t s).2
  | .checkin u => (cmd_checkin [(u, "administrator")] u s).2
  | .route u a => (cmd_route [(u, "administrator")] u a s).2
  | .review u r q cm => (cmd_review [(u, "administrator")] u r q cm s).2
  | .approve u => (cmd_approve [(u, "administrator")] u s).2
  | .reject u cm => (cmd_reject [(u, "administrator")] u cm s).2
  | .release u => (cmd_release [(u, "administrator")] u s).2
  | .revert u r => (cmd_revert [(u, "administrator")] u r s).2
  | .close u => (cmd_close [(u, "administrator")] u s).2
  | .assign u l => (cmd_assign [(u, "administrator")] u l s).2

/-- Run a command sequence. -/
def runCmds (cs : List MCmd) (s : Sys) : Sys :=
  match cs with
  | [] => s
  | c :: rest => runCmds rest (stepSys c s)

/-- The state created by `cmd_create` (`commands/create.py`): draft and
workspace copy written with minimal frontmatter, fresh metadata at version
0.1 / DRAFT checked out to the creator, and a CREATE audit event. -/
def initSys (doc_id : String) (executable : Bool) (user today : String) (d : Document) : Sys :=
  { doc_id := doc_id
    meta := some (create_initial_meta ⟨0, 1⟩ .DRAFT executable (some user) today)
    draft := some (minimalDoc d)
    effective := none
    archive := []
    audit := [{ event := "CREATE", user := user, version := "0.1" }]
    tasks := []
    workspaces := [(user, minimalDoc d)] }

/-- States reachable from document creation by some command sequence. -/
def Reachable (s : Sys) : Prop :=
  ∃ doc_id executable user today d cs,
    runCmds cs (initSys doc_id executable user today d) = s

/-- The six in-workflow statuses (review or approval in progress). -/
def inWorkflow (st : Status) : Bool :=
  is_review_status st || is_approval_status st

/-- The state invariant behind the checkin claim: outside the six in-workflow
statuses `pending_assignees` is empty, and a document without a draft file is
never in an in-workflow status. -/
def Inv (s : Sys) : Prop :=
  (inWorkflow (metaOr s.meta).status = false → (metaOr s.meta).pending_assignees = []) ∧
  (s.draft = none → inWorkflow (metaOr s.meta).status = false)

/-- The execution phase recorded in a state's metadata. -/
def phaseOf (s : Sys) : Option ExecutionPhase :=
  (metaOr s.meta).execution_phase

/-- Number of steps of a command sequence at which the recorded execution
phase changes. -/
def phaseFlips : List MCmd → Sys → Nat
  | [], _ => 0
  | c :: cs, s =>
    (if phaseOf (stepSys c s) ≠ phaseOf s then 1 else 0) + phaseFlips cs (stepSys c s)

/-! ## Basic lemmas about the metadata mutations -/

theorem metaOr_some (m : Meta) : metaOr (some m) = m := rfl

theorem update_meta_checkout_status (m : Meta) (u t : String) (nv : Option Version) :
    (update_meta_checkout m u t nv).status = m.status := by
  cases nv <;> rfl

theorem update_meta_checkout_pending (m : Meta) (u t : String) (nv : Option Version) :
    (update_meta_checkout m u t nv).pending_assignees = m.pending_assignees := by
  cases nv <;> rfl

theorem update_meta_checkout_phase (m : Meta) (u t : String) (nv : Option Version) :
    (update_meta_checkout m u t nv).execution_phase = m.execution_phase := by
  cases nv <;> rfl

theorem update_meta_checkin_phase (m : Meta) :
    (update_meta_checkin m).execution_phase = m.execution_phase := by
  unfold update_meta_checkin
  dsimp only
  split <;> rfl

theorem update_meta_checkin_pending (m : Meta) :
    (update_meta_checkin m).pending_assignees = m.pending_assignees := by
  unfold update_meta_checkin
  dsimp only
  split <;> rfl

theorem update_meta_checkin_owner (m : Meta) :
    (update_meta_checkin m).responsible_user = m.responsible_user := by
  unfold update_meta_checkin
  dsimp only
  split <;> rfl

theorem update_meta_checkin_flags (m : Meta) :
    (update_meta_checkin m).checked_out = false ∧
      (update_meta_checkin m).checked_out_date = none := by
  unfold update_meta_checkin
  dsimp only
  split <;> exact ⟨rfl, rfl⟩

theorem update_meta_approval_status (m : Meta) (ns : Status) (nv : Option Version)
    (co : Bool) : (update_meta_approval m ns nv co).status = ns := by
  cases nv <;> cases co <;> rfl

theorem update_meta_approval_pending (m : Meta) (ns : Status) (nv : Option Version)
    (co : Bool) : (update_meta_approval m ns nv co).pending_assignees = [] := by
  cases nv <;> cases co <;> rfl

theorem update_meta_approval_phase (m : Meta) (ns : Status) (nv : Option Version)
    (co : Bool) : (update_meta_approval m ns nv co).execution_phase = m.execution_phase := by
  cases nv <;> cases co <;> rfl

theorem review_meta_pending (m : Meta) (u : String) (o : ReviewOutcome) :
    (review_meta m u o).pending_assignees =
      m.pending_assignees.filter (fun x => x ≠ u) := by
  unfold review_meta record_review_outcome update_meta_review_complete
  dsimp only
  split <;> rfl

theorem review_meta_phase (m : Meta) (u : String) (o : ReviewOutcome) :
    (review_meta m u o).execution_phase = m.execution_phase := by
  unfold review_meta record_review_outcome update_meta_review_complete
  dsimp only
  split <;> rfl

/-! ## Lemmas about the workflow engine -/

theorem get_transition_spec {st : Status} {act : Action} {ex : Bool}
    {ph : Option ExecutionPhase} {t : StatusTransition}
    (h : get_transition st act ex ph = some t) :
    t ∈ WORKFLOW_TRANSITIONS ∧ t.from_status = st ∧ t.action = act := by
  unfold get_transition at h
  dsimp only at h
  split at h
  case _ t' heq =>
    injection h with h
    have hmem : t' ∈ (WORKFLOW_TRANSITIONS.filter
        (fun t => decide (t.from_status = st ∧ t.action = act))).filter
        (fun t => transitionMatches t st ex ph) := by
      rw [heq]
      exact List.mem_singleton.mpr rfl
    have h2 := List.mem_filter.mp hmem
    have h3 := List.mem_filter.mp h2.1
    have h4 := of_decide_eq_true h3.2
    exact ⟨h ▸ h3.1, h ▸ h4.1, h ▸ h4.2⟩
  case _ =>
    exact absurd h (by simp)

/-- Every route transition in the table targets an in-workflow status. -/
theorem route_targets_in_workflow :
    ∀ t ∈ WORKFLOW_TRANSITIONS,
      t.action = .route_review ∨ t.action = .route_approval →
        inWorkflow t.to_status = true := by
  decide

/-- What a successful `route_decision` guarantees about its outputs. -/
theorem route_decision_spec {u : String} {a : RouteArgs} {m : Meta}
    {t : StatusTransition} {m2 : Meta} {asn : List String}
    (h : route_decision u a m = some (t, m2, asn)) :
    (∃ act, get_transition m.status act m.executable m.execution_phase = some t ∧
      (act = Action.route_review ∨ act = Action.route_approval)) ∧
    m2.status = t.to_status ∧
    m2.pending_assignees = asn ∧
    m2.execution_phase = m.execution_phase ∧
    m2.version = m.version ∧
    m2.responsible_user = m.responsible_user := by
  unfold route_decision at h
  dsimp only at h
  split at h
  · exact absurd h (by simp)
  split at h
  · exact absurd h (by simp)
  split at h
  · exact absurd h (by simp)
  rename_i act heqact
  split at h
  · exact absurd h (by simp)
  rename_i t0 heqt
  split at h
  · exact absurd h (by simp)
  split at h
  · exact absurd h (by simp)
  split at h
  · exact absurd h (by simp)
  injection h with h
  injection h with h1 h
  injection h with h2 h3
  have hact : act = Action.route_review ∨ act = Action.route_approval := by
    split at heqact
    · left
      injection heqact with he
      exact he.symm
    · split at heqact
      · split at heqact
        · right
          injection heqact with he
          exact he.symm
        · exact absurd heqact (by simp)
      · exact absurd heqact (by simp)
  have h1' : get_transition m.status act m.executable m.execution_phase = some t := by
    rw [← h1]
    exact heqt
  refine ⟨⟨act, h1', hact⟩, ?_, ?_, ?_, ?_, ?_⟩ <;>
    (rw [← h2]; cases hr : a.retire <;>
      simp [update_meta_route, retire_mark, hr, h1, h3])

/-- A successful `route_decision` for an `--approval` invocation implies the
approval gate passed. -/
theorem route_decision_gate {u : String} {a : RouteArgs} {m : Meta}
    {r : StatusTransition × Meta × List String}
    (h : route_decision u a m = some r)
    (hr : a.review = false) (hap : a.approval = true) :
    check_approval_gate m = true := by
  unfold route_decision at h
  dsimp only at h
  rw [hr, hap] at h
  simp only [if_false, if_true] at h
  by_cases hg : check_approval_gate m
  · exact hg
  · rw [if_neg hg] at h
    exact absurd h (by simp)

theorem review_meta_status_ne (m : Meta) (u : String) (o : ReviewOutcome)
    (h : m.pending_assignees.filter (fun x => x ≠ u) ≠ []) :
    (review_meta m u o).status = m.status := by
  unfold review_meta record_review_outcome update_meta_review_complete
  dsimp only
  rw [if_neg h]

theorem review_meta_status_eq (m : Meta) (u : String) (o : ReviewOutcome) (ns : Status)
    (h : m.pending_assignees.filter (fun x => x ≠ u) = [])
    (hs : get_reviewed_status m.status = some ns) :
    (review_meta m u o).status = ns := by
  unfold review_meta record_review_outcome update_meta_review_complete
  dsimp only
  rw [if_pos h, hs]

/-! ## Preservation of the pending-assignees invariant -/

theorem inv_cmd_checkout (ag : Agents) (u t : String) (s : Sys) (h : Inv s) :
    Inv (cmd_checkout ag u t s).2 := by
  unfold cmd_checkout
  dsimp only
  split
  · exact h
  split
  · exact h
  split
  · rename_i d hd
    split
    · exact h
    · refine ⟨?_, ?_⟩
      · intro hw
        simp only [metaOr_some, update_meta_checkout_pending, update_meta_checkout_status] at hw ⊢
        exact h.1 hw
      · intro hc
        simp [hd] at hc
  · rename_i hd
    split
    · rename_i d he
      refine ⟨?_, ?_⟩
      · intro _
        simp only [metaOr_some]
        have hw0 : inWorkflow (metaOr s.meta).status = false := h.2 hd
        have : { update_meta_checkout (metaOr s.meta) u t
            (some ⟨(metaOr s.meta).version.major, 1⟩) with
              status := Status.DRAFT
              effective_version := some (metaOr s.meta).version }.pending_assignees =
            (metaOr s.meta).pending_assignees := by
          simp [update_meta_checkout]
        rw [this]
        exact h.1 hw0
      · intro hc
        simp at hc
    · exact h

theorem inv_cmd_checkin (ag : Agents) (u : String) (s : Sys) (h : Inv s) :
    Inv (cmd_checkin ag u s).2 := by
  unfold cmd_checkin
  dsimp only
  split
  · exact h
  split
  · exact h
  split
  · exact h
  split
  · exact h
  refine ⟨?_, ?_⟩
  · intro hw
    simp only [metaOr_some, update_meta_checkin_pending] at hw ⊢
    unfold update_meta_checkin at hw
    dsimp only at hw
    split at hw
    · rename_i hrev
      apply h.1
      rcases hrev with h1 | h1 | h1 <;> rw [h1] <;> rfl
    · exact h.1 hw
  · intro hc
    simp at hc

theorem inv_cmd_route (ag : Agents) (u : String) (a : RouteArgs) (s : Sys) (h : Inv s) :
    Inv (cmd_route ag u a s).2 := by
  unfold cmd_route
  dsimp only
  split
  · exact h
  split
  · exact h
  split
  · exact h
  rename_i hd
  split
  · exact h
  rename_i t m2 asn hdec
  have hspec := route_decision_spec hdec
  obtain ⟨⟨act, hline, hact⟩, hst, hpend, _, _, _⟩ := hspec
  have hmem := get_transition_spec hline
  have htarget := route_targets_in_workflow t hmem.1 (by
    rw [hmem.2.2]
    exact hact)
  refine ⟨?_, ?_⟩
  · intro hw
    simp only [metaOr_some] at hw
    rw [hst, htarget] at hw
    exact absurd hw (by simp)
  · intro hc
    simp [hd] at hc

theorem inv_cmd_review (ag : Agents) (u : String) (r q : Bool) (cm : String) (s : Sys)
    (h : Inv s) : Inv (cmd_review ag u r q cm s).2 := by
  unfold cmd_review
  dsimp only
  split
  · exact h
  split
  · exact h
  split
  · exact h
  split
  · exact h
  rename_i outcome heqo
  split
  · exact h
  rename_i hd
  split
  · exact h
  rename_i hrev
  split
  · exact h
  rename_i hmem
  refine ⟨?_, ?_⟩
  · intro hw
    simp only [metaOr_some, review_meta_pending] at hw ⊢
    by_cases hrem : (metaOr s.meta).pending_assignees.filter (fun x => x ≠ u) = []
    · exact hrem
    · rw [review_meta_status_ne _ _ _ hrem] at hw
      have : is_review_status (metaOr s.meta).status = true := by
        by_contra hc
        exact hrev (by simpa using hc)
      rw [inWorkflow] at hw
      rw [this] at hw
      exact absurd hw (by simp)
  · intro hc
    simp at hc
    exact absurd hc (by
      intro hx
      cases hd hx)

theorem inv_cmd_approve (ag : Agents) (u : String) (s : Sys) (h : Inv s) :
    Inv (cmd_approve ag u s).2 := by
  unfold cmd_approve
  dsimp only
  split
  · exact h
  split
  · exact h
  split
  · exact h
  rename_i d hd
  split
  · exact h
  rename_i happ
  split
  · exact h
  rename_i hmem
  have happ' : is_approval_status (metaOr s.meta).status = true := by
    by_contra hc
    exact happ (by simpa using hc)
  split
  · rename_i hrem
    split
    · refine ⟨fun hw => h.1 hw, fun hc => ?_⟩
      simp [hd] at hc
    · rename_i ns hns
      split
      · refine ⟨?_, ?_⟩
        · intro _
          simp [metaOr_some, update_meta_approval_pending]
        · intro _
          simp [metaOr_some, update_meta_approval_status, inWorkflow,
            is_review_status, is_approval_status]
      · split
        · refine ⟨?_, ?_⟩
          · intro _
            simp [metaOr_some, update_meta_approval_pending]
          · intro _
            simp [metaOr_some, update_meta_approval_status, inWorkflow,
              is_review_status, is_approval_status]
        · refine ⟨?_, ?_⟩
          · intro _
            simp [metaOr_some, update_meta_approval_pending]
          · intro hc
            simp [hd] at hc
  · refine ⟨?_, ?_⟩
    · intro hw
      simp only [metaOr_some] at hw
      simp only [inWorkflow, happ', Bool.or_true] at hw
      exact absurd hw (by simp)
    · intro hc
      simp [hd] at hc

theorem inv_cmd_reject (ag : Agents) (u cm : String) (s : Sys) (h : Inv s) :
    Inv (cmd_reject ag u cm s).2 := by
  unfold cmd_reject
  dsimp only
  split
  · exact h
  split
  · exact h
  split
  · exact h
  split
  · exact h
  rename_i hd
  split
  · exact h
  split
  · exact h
  refine ⟨?_, ?_⟩
  · intro _
    split <;> simp [metaOr_some, update_meta_approval_pending]
  · intro hc
    simp [hd] at hc

theorem inv_cmd_release (ag : Agents) (u : String) (s : Sys) (h : Inv s) :
    Inv (cmd_release ag u s).2 := by
  unfold cmd_release
  dsimp only
  split
  · exact h
  split
  · exact h
  split
  · exact h
  rename_i hd
  split
  · exact h
  split
  · exact h
  split
  · exact h
  rename_i hpa
  have hpa' : (metaOr s.meta).status = .PRE_APPROVED := by
    by_contra hc
    exact hpa (by simpa using hc)
  refine ⟨?_, ?_⟩
  · intro _
    simp only [metaOr_some]
    apply h.1
    rw [hpa']
    rfl
  · intro hc
    simp [hd] at hc

theorem inv_cmd_revert (ag : Agents) (u reason : String) (s : Sys) (h : Inv s) :
    Inv (cmd_revert ag u reason s).2 := by
  unfold cmd_revert
  dsimp only
  split
  · exact h
  split
  · exact h
  split
  · exact h
  split
  · exact h
  rename_i hd
  split
  · exact h
  split
  · exact h
  rename_i hpr
  have hpr' : (metaOr s.meta).status = .POST_REVIEWED := by
    by_contra hc
    exact hpr (by simpa using hc)
  refine ⟨?_, ?_⟩
  · intro _
    simp only [metaOr_some]
    apply h.1
    rw [hpr']
    rfl
  · intro hc
    simp [hd] at hc

theorem inv_cmd_close (ag : Agents) (u : String) (s : Sys) (h : Inv s) :
    Inv (cmd_close ag u s).2 := by
  unfold cmd_close
  dsimp only
  split
  · exact h
  split
  · exact h
  split
  · exact h
  rename_i d hd
  split
  · exact h
  split
  · exact h
  split
  · exact h
  exact ⟨fun _ => rfl, fun _ => rfl⟩

set_option maxHeartbeats 1000000 in
theorem inv_cmd_assign (ag : Agents) (u : String) (l : List String) (s : Sys) (h : Inv s) :
    Inv (cmd_assign ag u l s).2 := by
  unfold cmd_assign
  dsimp only
  split
  · exact h
  split
  · exact h
  split
  · exact h
  split
  · exact h
  split
  · exact h
  rename_i hd
  split
  · exact h
  rename_i wf hwf
  have hiw : inWorkflow (metaOr s.meta).status = true := by
    split at hwf
    · rename_i hc
      simp [inWorkflow, is_review_status, is_approval_status, hc]
    split at hwf
    · rename_i hc
      simp [inWorkflow, is_review_status, is_approval_status, hc]
    split at hwf
    · rename_i hc
      simp [inWorkflow, is_review_status, is_approval_status, hc]
    split at hwf
    · rename_i hc
      simp [inWorkflow, is_review_status, is_approval_status, hc]
    split at hwf
    · rename_i hc
      simp [inWorkflow, is_review_status, is_approval_status, hc]
    split at hwf
    · rename_i hc
      simp [inWorkflow, is_review_status, is_approval_status, hc]
    exact absurd hwf (by simp)
  refine ⟨?_, ?_⟩
  · intro hw
    simp only [metaOr_some] at hw
    rw [hiw] at hw
    exact absurd hw (by simp)
  · intro hc
    simp [hd] at hc

/-- Every command preserves the invariant. -/
theorem inv_step (c : MCmd) (s : Sys) (h : Inv s) : Inv (stepSys c s) := by
  cases c with
  | checkout u t => exact inv_cmd_checkout _ u t s h
  | checkin u => exact inv_cmd_checkin _ u s h
  | route u a => exact inv_cmd_route _ u a s h
  | review u r q cm => exact inv_cmd_review _ u r q cm s h
  | approve u => exact inv_cmd_approve _ u s h
  | reject u cm => exact inv_cmd_reject _ u cm s h
  | release u => exact inv_cmd_release _ u s h
  | revert u r => exact inv_cmd_revert _ u r s h
  | close u => exact inv_cmd_close _ u s h
  | assign u l => exact inv_cmd_assign _ u l s h

/-- A freshly created document satisfies the invariant. -/
theorem inv_init (doc_id : String) (executable : Bool) (user today : String)
    (d : Document) : Inv (initSys doc_id executable user today d) := by
  refine ⟨fun _ => rfl, fun hc => ?_⟩
  simp [initSys] at hc

/-- Command sequences preserve the invariant. -/
theorem inv_runCmds (cs : List MCmd) (s : Sys) (h : Inv s) : Inv (runCmds cs s) := by
  induction cs generalizing s with
  | nil => exact h
  | cons c rest ih => exact ih _ (inv_step c s h)

/-- The invariant holds at every reachable state. -/
theorem inv_reachable {s : Sys} (h : Reachable s) : Inv s := by
  obtain ⟨doc_id, executable, user, today, d, cs, hrun⟩ := h
  subst hrun
  exact inv_runCmds cs _ (inv_init doc_id executable user today d)

/-! ## Execution-phase lemmas -/

theorem phase_cmd_checkout (ag : Agents) (u t : String) (s : Sys) :
    phaseOf (cmd_checkout ag u t s).2 = phaseOf s := by
  unfold cmd_checkout
  dsimp only
  split
  · rfl
  split
  · rfl
  split
  · split
    · rfl
    · simp [phaseOf, metaOr_some, update_meta_checkout_phase]
  · split
    · simp [phaseOf, metaOr_some, update_meta_checkout]
    · rfl

theorem phase_cmd_checkin (ag : Agents) (u : String) (s : Sys) :
    phaseOf (cmd_checkin ag u s).2 = phaseOf s := by
  unfold cmd_checkin
  dsimp only
  split
  · rfl
  split
  · rfl
  split
  · rfl
  split
  · rfl
  simp [phaseOf, metaOr_some, update_meta_checkin_phase]

theorem phase_cmd_route (ag : Agents) (u : String) (a : RouteArgs) (s : Sys) :
    phaseOf (cmd_route ag u a s).2 = phaseOf s := by
  unfold cmd_route
  dsimp only
  split
  · rfl
  split
  · rfl
  split
  · rfl
  split
  · rfl
  rename_i t m2 asn hdec
  have hspec := route_decision_spec hdec
  simp [phaseOf, metaOr_some, hspec.2.2.2.1]

theorem phase_cmd_review (ag : Agents) (u : String) (r q : Bool) (cm : String) (s : Sys) :
    phaseOf (cmd_review ag u r q cm s).2 = phaseOf s := by
  unfold cmd_review
  dsimp only
  split
  · rfl
  split
  · rfl
  split
  · rfl
  split
  · rfl
  split
  · rfl
  split
  · rfl
  split
  · rfl
  simp [phaseOf, metaOr_some, review_meta_phase]

theorem phase_cmd_approve (ag : Agents) (u : String) (s : Sys) :
    phaseOf (cmd_approve ag u s).2 = phaseOf s := by
  unfold cmd_approve
  dsimp only
  split
  · rfl
  split
  · rfl
  split
  · rfl
  split
  · rfl
  split
  · rfl
  split
  · split
    · rfl
    · split
      · simp [phaseOf, metaOr_some, update_meta_approval_phase]
      · split
        · simp [phaseOf, metaOr_some, update_meta_approval_phase]
        · simp [phaseOf, metaOr_some, update_meta_approval_phase]
  · simp [phaseOf, metaOr_some]

theorem phase_cmd_reject (ag : Agents) (u cm : String) (s : Sys) :
    phaseOf (cmd_reject ag u cm s).2 = phaseOf s := by
  unfold cmd_reject
  dsimp only
  split
  · rfl
  split
  · rfl
  split
  · rfl
  split
  · rfl
  split
  · rfl
  split
  · rfl
  split <;> simp [phaseOf, metaOr_some, update_meta_approval_phase]

theorem phase_cmd_revert (ag : Agents) (u reason : String) (s : Sys) :
    phaseOf (cmd_revert ag u reason s).2 = phaseOf s := by
  unfold cmd_revert
  dsimp only
  split
  · rfl
  split
  · rfl
  split
  · rfl
  split
  · rfl
  split
  · rfl
  split
  · rfl
  simp [phaseOf, metaOr_some]

theorem phase_cmd_close (ag : Agents) (u : String) (s : Sys) :
    phaseOf (cmd_close ag u s).2 = phaseOf s := by
  unfold cmd_close
  dsimp only
  split
  · rfl
  split
  · rfl
  split
  · rfl
  split
  · rfl
  split
  · rfl
  split
  · rfl
  simp [phaseOf, metaOr_some]

set_option maxHeartbeats 1000000 in
theorem phase_cmd_assign (ag : Agents) (u : String) (l : List String) (s : Sys) :
    phaseOf (cmd_assign ag u l s).2 = phaseOf s := by
  unfold cmd_assign
  dsimp only
  split
  · rfl
  split
  · rfl
  split
  · rfl
  split
  · rfl
  split
  · rfl
  split
  · rfl
  simp [phaseOf, metaOr_some]

theorem phase_cmd_release (ag : Agents) (u : String) (s : Sys) :
    phaseOf (cmd_release ag u s).2 = phaseOf s ∨
      ((metaOr s.meta).status = .PRE_APPROVED ∧
        phaseOf (cmd_release ag u s).2 = some .post_release) := by
  unfold cmd_release
  dsimp only
  split
  · left; rfl
  split
  · left; rfl
  split
  · left; rfl
  split
  · left; rfl
  split
  · left; rfl
  split
  · left; rfl
  rename_i hpa
  right
  have hpa' : (metaOr s.meta).status = .PRE_APPROVED := by
    by_contra hc
    exact hpa (by simpa using hc)
  exact ⟨hpa', by simp [phaseOf, metaOr_some]⟩

/-- A step changing the phase must be a `release` from `PRE_APPROVED`, and it
sets the phase to `post_release`. -/
theorem phase_step_char (c : MCmd) (s : Sys)
    (hch : phaseOf (stepSys c s) ≠ phaseOf s) :
    (∃ u, c = MCmd.release u) ∧ (metaOr s.meta).status = .PRE_APPROVED ∧
      phaseOf (stepSys c s) = some .post_release := by
  cases c with
  | checkout u t => exact absurd (phase_cmd_checkout _ u t s) hch
  | checkin u => exact absurd (phase_cmd_checkin _ u s) hch
  | route u a => exact absurd (phase_cmd_route _ u a s) hch
  | review u r q cm => exact absurd (phase_cmd_review _ u r q cm s) hch
  | approve u => exact absurd (phase_cmd_approve _ u s) hch
  | reject u cm => exact absurd (phase_cmd_reject _ u cm s) hch
  | release u =>
    rcases phase_cmd_release [(u, "administrator")] u s with he | ⟨hpa, hpost⟩
    · exact absurd he hch
    · exact ⟨⟨u, rfl⟩, hpa, hpost⟩
  | revert u r => exact absurd (phase_cmd_revert _ u r s) hch
  | close u => exact absurd (phase_cmd_close _ u s) hch
  | assign u l => exact absurd (phase_cmd_assign _ u l s) hch

/-- Once the phase is `post_release` it stays `post_release`. -/
theorem phase_mono (c : MCmd) (s : Sys)
    (hp : phaseOf s = some .post_release) :
    phaseOf (stepSys c s) = some .post_release := by
  by_cases hch : phaseOf (stepSys c s) = phaseOf s
  · rw [hch, hp]
  · exact (phase_step_char c s hch).2.2

theorem phaseFlips_zero_of_post (cs : List MCmd) (s : Sys)
    (hp : phaseOf s = some .post_release) : phaseFlips cs s = 0 := by
  induction cs generalizing s with
  | nil => rfl
  | cons c rest ih =>
    have hp' := phase_mono c s hp
    rw [phaseFlips, if_neg (by rw [hp', hp]; exact fun hc => hc rfl), ih _ hp']

/-- The phase changes at most once along any command sequence. -/
theorem phaseFlips_le_one (cs : List MCmd) (s : Sys) : phaseFlips cs s ≤ 1 := by
  induction cs generalizing s with
  | nil => exact Nat.zero_le 1
  | cons c rest ih =>
    by_cases hch : phaseOf (stepSys c s) ≠ phaseOf s
    · have hpost := (phase_step_char c s hch).2.2
      rw [phaseFlips, if_pos hch, phaseFlips_zero_of_post rest _ hpost]
    · rw [phaseFlips, if_neg hch]
      simpa using ih (stepSys c s)

/-! ## Frontmatter round-trip lemmas -/

theorem isPre_refl_append (s t : List Char) : isPre s (s ++ t) = true := by
  induction s with
  | nil => rfl
  | cons c cs ih => simp [isPre, ih]

/-- No occurrence of `sep` begins strictly inside `a` within `a ++ sep ++ b`:
the recursive early-occurrence check matching `splitFirst`. -/
def noEarlyOcc (sep : List Char) : List Char → List Char → Bool
  | [], _ => true
  | c :: cs, b => !(isPre sep (c :: (cs ++ sep ++ b))) && noEarlyOcc sep cs b

theorem splitFirst_boundary (sep : List Char) (hsep : sep ≠ []) (b : List Char) :
    ∀ a, noEarlyOcc sep a b = true → splitFirst sep (a ++ sep ++ b) = some (a, b) := by
  intro a
  induction a with
  | nil =>
    intro _
    rcases sep with _ | ⟨c, cs⟩
    · exact absurd rfl hsep
    · show splitFirst (c :: cs) (c :: (cs ++ b)) = some ([], b)
      unfold splitFirst
      have hp : isPre (c :: cs) (c :: (cs ++ b)) = true := isPre_refl_append (c :: cs) b
      rw [if_pos hp]
      show some (([] : List Char), (cs ++ b).drop cs.length) = some ([], b)
      rw [List.drop_left]
  | cons x xs ih =>
    intro hno
    have h1 : isPre sep (x :: (xs ++ sep ++ b)) = false ∧ noEarlyOcc sep xs b = true := by
      simpa [noEarlyOcc, Bool.and_eq_true] using hno
    show splitFirst sep (x :: (xs ++ sep ++ b)) = some (x :: xs, b)
    unfold splitFirst
    rw [if_neg (by rw [h1.1]; simp), ih h1.2]

theorem splitAll_cons_sep (c : Char) (r : List Char) :
    splitAllChar c (c :: r) = [] :: splitAllChar c r := by
  simp [splitAllChar]

theorem splitAll_append (c : Char) (l r : List Char) (hl : c ∉ l) :
    splitAllChar c (l ++ c :: r) = l :: splitAllChar c r := by
  induction l with
  | nil => simp [splitAllChar]
  | cons a as ih =>
    have ha : ¬(a = c) := fun hc => hl (hc ▸ List.mem_cons_self a as)
    have has : c ∉ as := fun hc => hl (List.mem_cons_of_mem a hc)
    show splitAllChar c (a :: (as ++ c :: r)) = (a :: as) :: splitAllChar c r
    unfold splitAllChar
    rw [if_neg ha, ih has]
    show (a :: as) :: splitAllChar c r = _
    congr 1
    cases r <;> rfl

/-- Well-formedness of a frontmatter entry for the flat-map YAML model:
non-empty key, no colon in the key, no newline in key or value. -/
def wellFormedEntry (kv : String × String) : Bool :=
  !kv.1.data.isEmpty && (':' ∉ kv.1.data) && ('\n' ∉ kv.1.data) && ('\n' ∉ kv.2.data)

/-- Well-formedness of a frontmatter map. -/
def wellFormedFM (fm : List (String × String)) : Bool := fm.all wellFormedEntry

theorem noEarlyOcc_colon (v : List Char) :
    ∀ k : List Char, ':' ∉ k → noEarlyOcc (": ").data k v = true := by
  intro k
  induction k with
  | nil => intro _; rfl
  | cons c cs ih =>
    intro hk
    have hc : ¬(':' = c) := fun hc => hk (hc ▸ List.mem_cons_self c cs)
    have hcs : ':' ∉ cs := fun hc => hk (List.mem_cons_of_mem c hc)
    show (!(isPre (": ").data (c :: (cs ++ (": ").data ++ v))) &&
      noEarlyOcc (": ").data cs v) = true
    rw [ih hcs]
    have : isPre (": ").data (c :: (cs ++ (": ").data ++ v)) = false := by
      show (decide (':' = c) && isPre [' '] (cs ++ (": ").data ++ v)) = false
      simp [hc]
    rw [this]
    rfl

theorem yamlLoad_dump (fm : List (String × String)) (hwf : wellFormedFM fm = true) :
    yamlLoadL (yamlDumpL fm) = fm := by
  induction fm with
  | nil => rfl
  | cons kv rest ih =>
    obtain ⟨k, v⟩ := kv
    have hall : wellFormedEntry (k, v) = true ∧ wellFormedFM rest = true := by
      simpa [wellFormedFM, Bool.and_eq_true] using hwf
    have hent := hall.1
    have hrest := hall.2
    simp only [wellFormedEntry, Bool.and_eq_true, Bool.not_eq_true',
      decide_eq_true_eq] at hent
    obtain ⟨⟨⟨hk1, hk2⟩, hk3⟩, hv⟩ := hent
    have hk1 : ¬k.data.isEmpty := by simp [hk1]
    have hline : '\n' ∉ k.data ++ (": ").data ++ v.data := by
      intro hmem
      rcases List.mem_append.mp hmem with hmem | hmem
      · rcases List.mem_append.mp hmem with hmem | hmem
        · exact hk3 hmem
        · simp at hmem
      · exact hv hmem
    have hdump : yamlDumpL ((k, v) :: rest) =
        (k.data ++ (": ").data ++ v.data) ++ '\n' :: yamlDumpL rest := by
      simp [yamlDumpL]
    rw [hdump]
    unfold yamlLoadL
    rw [splitAll_append _ _ _ hline]
    rw [List.filterMap_cons]
    have hne : ¬(k.data ++ (": ").data ++ v.data = []) := by
      intro hc
      rcases List.append_eq_nil.mp hc with ⟨hc1, _⟩
      rcases List.append_eq_nil.mp hc1 with ⟨_, hc3⟩
      simp at hc3
    have hsplit : splitFirst (": ").data (k.data ++ (": ").data ++ v.data) =
        some (k.data, v.data) :=
      splitFirst_boundary (": ").data (by simp) v.data k.data
        (noEarlyOcc_colon v.data k.data hk2)
    rw [if_neg hne, hsplit]
    show (String.mk k.data, String.mk v.data) :: yamlLoadL (yamlDumpL rest) = (k, v) :: rest
    rw [ih hrest]

theorem yamlLoad_cons_newline (y : List Char) :
    yamlLoadL ('\n' :: y) = yamlLoadL y := by
  unfold yamlLoadL
  rw [splitAll_cons_sep, List.filterMap_cons]
  rfl

/-- The parse of a serialized document, under the framing conditions: the
serialized YAML block contains no `---` occurrence that would confuse the
`split("---", 2)` framing. -/
theorem parse_serialize (fm' : List (String × String)) (body : List Char)
    (hNo : noEarlyOcc ("---").data ('\n' :: yamlDumpL fm') ('\n' :: '\n' :: body) = true) :
    parse_frontmatter (serialize_frontmatter fm' body) =
      (yamlLoadL (yamlDumpL fm'), body.dropWhile (fun c => c = '\n')) := by
  have hshape : serialize_frontmatter fm' body =
      ("---").data ++ (('\n' :: yamlDumpL fm') ++ ("---").data ++
        ('\n' :: '\n' :: body)) := by
    simp [serialize_frontmatter]
  have hsplit1 : splitFirst ("---").data (serialize_frontmatter fm' body) =
      some ([], ('\n' :: yamlDumpL fm') ++ ("---").data ++ ('\n' :: '\n' :: body)) := by
    rw [hshape]
    exact splitFirst_boundary ("---").data (by simp)
      (('\n' :: yamlDumpL fm') ++ ("---").data ++ ('\n' :: '\n' :: body)) [] rfl
  have hsplit2 : splitFirst ("---").data
      (('\n' :: yamlDumpL fm') ++ ("---").data ++ ('\n' :: '\n' :: body)) =
      some ('\n' :: yamlDumpL fm', '\n' :: '\n' :: body) :=
    splitFirst_boundary ("---").data (by simp) ('\n' :: '\n' :: body)
      ('\n' :: yamlDumpL fm') hNo
  unfold parse_frontmatter
  rw [if_pos (by rw [hshape]; exact isPre_refl_append _ _)]
  unfold pySplit2
  rw [hsplit1]
  dsimp only
  rw [hsplit2]
  show (yamlLoadL ('\n' :: yamlDumpL fm'),
      ('\n' :: '\n' :: body).dropWhile (fun c => c = '\n')) = _
  rw [yamlLoad_cons_newline]
  congr 1

theorem lookupKey_cons {A : Type} (k k1 : String) (v1 : A)
    (rest : List (String × A)) :
    lookupKey k ((k1, v1) :: rest) = if k1 = k then some v1 else lookupKey k rest := rfl

theorem lookupKey_filter (k : String) (L : List String) (fm : List (String × String)) :
    lookupKey k (fm.filter (fun kv => kv.1 ∈ L)) =
      if k ∈ L then lookupKey k fm else none := by
  induction fm with
  | nil => simp [lookupKey]
  | cons kv rest ih =>
    rcases kv with ⟨k1, v1⟩
    by_cases hk : k1 = k
    · subst hk
      by_cases hmem : k1 ∈ L
      · simp [List.filter_cons, hmem, lookupKey_cons, ih]
      · simp [List.filter_cons, hmem, lookupKey_cons, ih]
    · by_cases hmem : k1 ∈ L
      · simp [List.filter_cons, hmem, lookupKey_cons, hk, ih]
      · simp [List.filter_cons, hmem, lookupKey_cons, hk, ih]

theorem dropWhile_of_not_newline (body : List Char) (h : isPre ['\n'] body = false) :
    body.dropWhile (fun c => c = '\n') = body := by
  cases body with
  | nil => rfl
  | cons c t =>
    have hc : ¬(c = '\n') := by
      intro hcc
      subst hcc
      simp [isPre] at h
    simp [List.dropWhile, hc]

/-! ## Claim theorems -/

/-- C5 (code bug): `commands/cancel.py` begins with
`if user not in USER_GROUPS["initiators"]`, but `qms_config.USER_GROUPS` has
keys `administrator` / `initiator` / `quality` / `reviewer` — there is no
`initiators` key, so every invocation of the cancel command raises `KeyError`
before reading the metadata.  Consequently cancel never deletes anything (not
even a never-effective, checked-in draft with `--confirm`), contradicting the
claim and the repository's own qualification tests for cancel. -/
theorem C5_cancel_always_keyerror :
    (∀ (user : String) (confirm : Bool) (s : Sys),
      cmd_cancel user confirm s = .error "KeyError: initiators") ∧
    lookupKey "initiators" USER_GROUPS = none ∧
    lookupKey "initiator" USER_GROUPS = some [] :=
  ⟨fun _ _ _ => rfl, rfl, rfl⟩

/-- C10: `check_permission` returns `(True, "")` for every command name that
has no entry in the `PERMISSIONS` table, whatever the user and keyword
arguments; in particular `cancel`, `fix`, `history`, `comments`, `namespace`
and `user` are absent from the table, so the group-and-predicate check
imposes no restriction on them. -/
theorem C10_unlisted_commands_allowed :
    (∀ (agents : Agents) (user command : String) (doc_owner : Option String)
      (assigned : Option (List String)),
      lookupKey command PERMISSIONS = none →
      check_permission agents user command doc_owner assigned = (true, "")) ∧
    lookupKey "cancel" PERMISSIONS = none ∧
    lookupKey "fix" PERMISSIONS = none ∧
    lookupKey "history" PERMISSIONS = none ∧
    lookupKey "comments" PERMISSIONS = none ∧
    lookupKey "namespace" PERMISSIONS = none ∧
    lookupKey "user" PERMISSIONS = none := by
  refine ⟨?_, rfl, rfl, rfl, rfl, rfl, rfl⟩
  intro agents user command doc_owner assigned h
  unfold check_permission
  rw [h]

theorem C10_unlisted_commands_allowed_witness :
    lookupKey "cancel" PERMISSIONS = none ∧
    check_permission [] "mallory" "cancel" (some "claude") (some []) = (true, "") :=
  ⟨rfl, C10_unlisted_commands_allowed.1 [] "mallory" "cancel" (some "claude") (some [])
    C10_unlisted_commands_allowed.2.1⟩

/-- The audit event of C3's failing input: a review comment by `qa`. -/
def c3event : AuditEvent :=
  { event := "REVIEW", user := "qa", version := "0.1",
    comment := some "Looks fine", outcome := some "RECOMMEND" }

/-- The failing input of C3: SOP-001 whose authoritative metadata status is
IN_REVIEW (with reviewer `lead` still pending), whose draft carries the
minimal frontmatter that the system itself writes (only `title` — no
`status` key), and whose audit log holds qa's review comment. -/
def c3s : Sys :=
  { doc_id := "SOP-001"
    meta := some { Meta.empty with status := .IN_REVIEW, pending_assignees := ["lead"] }
    draft := some { frontmatter := [("title", "T")], body := "body" }
    effective := none
    archive := []
    audit := [c3event]
    tasks := []
    workspaces := [] }

/-- C3 (code bug): `cmd_comments` reads the visibility status from the
on-disk frontmatter (`frontmatter.get("status", "")`), but
`write_document_minimal` — used for every QMS-stored document — strips the
`status` key, so for a document whose metadata status is IN_REVIEW the
frontmatter status is `""`, the review-state gate never fires, and the query
returns qa's review comment to the still-pending reviewer `lead` with exit
code 0, contrary to the visibility rule stated by the spec and by the
comment in the code itself. -/
theorem C3_comments_visible_during_review :
    (metaOr c3s.meta).status = .IN_REVIEW ∧
    lookupKey "status" [("title", "T")] = none ∧
    cmd_comments [] "lead" "" c3s = (0, [c3event]) ∧
    (cmd_comments [] "lead" "" c3s).2 ≠ [] := by
  refine ⟨rfl, rfl, ?_, ?_⟩ <;> decide

/-- C8: over every command sequence the recorded `execution_phase` is
monotone: once `post_release` it never returns to `pre_release`; the only
step that changes the phase is a `release` from status `PRE_APPROVED`, which
sets `post_release`; checkout, checkin and revert preserve the phase; and the
phase changes at most once along any command sequence. -/
theorem C8_phase_monotone :
    (∀ (c : MCmd) (s : Sys), phaseOf s = some .post_release →
      phaseOf (stepSys c s) = some .post_release) ∧
    (∀ (c : MCmd) (s : Sys), phaseOf (stepSys c s) ≠ phaseOf s →
      (∃ u, c = MCmd.release u) ∧ (metaOr s.meta).status = .PRE_APPROVED ∧
        phaseOf (stepSys c s) = some .post_release) ∧
    (∀ (ag : Agents) (u t : String) (s : Sys),
      phaseOf (cmd_checkout ag u t s).2 = phaseOf s) ∧
    (∀ (ag : Agents) (u : String) (s : Sys),
      phaseOf (cmd_checkin ag u s).2 = phaseOf s) ∧
    (∀ (ag : Agents) (u reason : String) (s : Sys),
      phaseOf (cmd_revert ag u reason s).2 = phaseOf s) ∧
    (∀ (cs : List MCmd) (s : Sys), phaseFlips cs s ≤ 1) :=
  ⟨phase_mono, phase_step_char, phase_cmd_checkout, phase_cmd_checkin,
    phase_cmd_revert, phaseFlips_le_one⟩

/-- A post-release state used to witness C8. -/
def c8s : Sys :=
  { doc_id := "CR-001"
    meta := some { Meta.empty with
      status := .IN_EXECUTION
      executable := true
      execution_phase := some .post_release }
    draft := some { frontmatter := [("title", "T")], body := "B" }
    effective := none
    archive := []
    audit := []
    tasks := []
    workspaces := [] }

theorem C8_phase_monotone_witness :
    phaseOf c8s = some ExecutionPhase.post_release ∧
    phaseOf (stepSys (MCmd.checkin "claude") c8s) = some ExecutionPhase.post_release :=
  ⟨by decide, C8_phase_monotone.1 (MCmd.checkin "claude") c8s (by decide)⟩

/-- A recorded UPDATES_REQUIRED outcome makes the approval gate fail. -/
theorem gate_false_of_mem {m : Meta} {u : String}
    (h : (u, ReviewOutcome.UPDATES_REQUIRED) ∈ m.review_outcomes) :
    check_approval_gate m = false := by
  unfold check_approval_gate
  cases hall : m.review_outcomes.all (fun p => decide (p.2 = ReviewOutcome.RECOMMEND)) with
  | false => simp [hall]
  | true =>
    have := List.all_eq_true.mp hall _ h
    simp at this

/-- C1 (spec-modelled gate): with `--approval` (and not `--review`), the
route command is refused with exit code 1 and an unchanged state whenever the
approval gate fails — in particular whenever the latest review cycle recorded
an UPDATES_REQUIRED outcome — and it can only succeed when the gate passes,
i.e. when the latest completed review cycle recorded only RECOMMEND
outcomes. -/
theorem C1_route_approval_gate (agents : Agents) (user : String) (a : RouteArgs)
    (s : Sys) (hrev : a.review = false) (happ : a.approval = true) :
    (check_approval_gate (metaOr s.meta) = false → cmd_route agents user a s = (1, s)) ∧
    ((cmd_route agents user a s).1 = 0 → check_approval_gate (metaOr s.meta) = true) ∧
    (∀ u, (u, ReviewOutcome.UPDATES_REQUIRED) ∈ (metaOr s.meta).review_outcomes →
      cmd_route agents user a s = (1, s)) := by
  have key : check_approval_gate (metaOr s.meta) = false →
      cmd_route agents user a s = (1, s) := by
    intro hg
    unfold cmd_route
    dsimp only
    split
    · rfl
    split
    · rfl
    split
    · rfl
    split
    · rfl
    rename_i t m2 asn hdec
    have := route_decision_gate hdec hrev happ
    rw [hg] at this
    exact absurd this (by simp)
  refine ⟨key, ?_, ?_⟩
  · intro h0
    by_cases hg : check_approval_gate (metaOr s.meta) = true
    · exact hg
    · have hg' : check_approval_gate (metaOr s.meta) = false := by
        cases hx : check_approval_gate (metaOr s.meta)
        · rfl
        · exact absurd hx hg
      rw [key hg'] at h0
      exact absurd h0 (by simp)
  · intro u hu
    exact key (gate_false_of_mem hu)

/-- C1 witness state: a reviewed document whose review cycle recorded an
UPDATES_REQUIRED outcome from qa. -/
def c1s : Sys :=
  { doc_id := "SOP-001"
    meta := some { Meta.empty with
      status := .REVIEWED
      responsible_user := some "lead"
      review_outcomes := [("qa", .UPDATES_REQUIRED)] }
    draft := some { frontmatter := [("title", "T")], body := "B" }
    effective := none
    archive := []
    audit := []
    tasks := []
    workspaces := [] }

theorem C1_route_approval_gate_witness :
    cmd_route [] "lead" ⟨false, true, none, false⟩ c1s = (1, c1s) :=
  (C1_route_approval_gate [] "lead" ⟨false, true, none, false⟩ c1s rfl rfl).2.2
    "qa" (by decide)

/-- C2: checkin always clears the checkout flags and preserves owner and
execution phase (for every metadata value), and for every reachable document
whose status is REVIEWED / PRE_REVIEWED / POST_REVIEWED, a completed checkin
leaves the status DRAFT with an empty `pending_assignees` list (empty because
on every reachable state `pending_assignees` is empty outside the six
in-workflow statuses; `update_meta_checkin` itself resets the review-cycle
fields but does not write `pending_assignees`). -/
theorem C2_checkin_reverts_reviewed :
    (∀ m : Meta,
      (update_meta_checkin m).checked_out = false ∧
      (update_meta_checkin m).checked_out_date = none ∧
      (update_meta_checkin m).responsible_user = m.responsible_user ∧
      (update_meta_checkin m).execution_phase = m.execution_phase ∧
      ((m.status = .REVIEWED ∨ m.status = .PRE_REVIEWED ∨ m.status = .POST_REVIEWED) →
        (update_meta_checkin m).status = .DRAFT)) ∧
    (∀ (agents : Agents) (user : String) (s s' : Sys) (code : Nat),
      Reachable s →
      ((metaOr s.meta).status = .REVIEWED ∨ (metaOr s.meta).status = .PRE_REVIEWED ∨
        (metaOr s.meta).status = .POST_REVIEWED) →
      cmd_checkin agents user s = (code, s') → code = 0 →
      (metaOr s'.meta).status = .DRAFT ∧ (metaOr s'.meta).pending_assignees = []) := by
  constructor
  · intro m
    refine ⟨(update_meta_checkin_flags m).1, (update_meta_checkin_flags m).2,
      update_meta_checkin_owner m, update_meta_checkin_phase m, ?_⟩
    intro hrev
    unfold update_meta_checkin
    dsimp only
    rw [if_pos hrev]
  · intro agents user s s' code hreach hrev hcmd h0
    have hInv := inv_reachable hreach
    have hpend : (metaOr s.meta).pending_assignees = [] := by
      apply hInv.1
      rcases hrev with h1 | h1 | h1 <;> rw [h1] <;> rfl
    unfold cmd_checkin at hcmd
    dsimp only at hcmd
    split at hcmd
    · injection hcmd with h1 h2
      rw [h0] at h1
      exact absurd h1 (by simp)
    split at hcmd
    · injection hcmd with h1 h2
      rw [h0] at h1
      exact absurd h1 (by simp)
    split at hcmd
    · injection hcmd with h1 h2
      rw [h0] at h1
      exact absurd h1 (by simp)
    split at hcmd
    · injection hcmd with h1 h2
      rw [h0] at h1
      exact absurd h1 (by simp)
    injection hcmd with h1 h2
    rw [← h2]
    simp only [metaOr_some]
    constructor
    · unfold update_meta_checkin
      dsimp only
      rw [if_pos hrev]
    · rw [update_meta_checkin_pending]
      exact hpend

/-- A document of the C2 witness. -/
def c2doc : Document := { frontmatter := [("title", "T")], body := "Body" }

/-- The command chain of the C2 witness: create, checkin, route for review to
qa, qa recommends (status REVIEWED), then the owner checks the draft out
again (status remains REVIEWED, workspace copy restored). -/
def c2cmds : List MCmd :=
  [MCmd.checkin "claude",
   MCmd.route "claude" ⟨true, false, some ["qa"], false⟩,
   MCmd.review "qa" true false "ok",
   MCmd.checkout "claude" "2026-01-02"]

/-- The C2 witness state. -/
def c2s : Sys := runCmds c2cmds (initSys "SOP-001" false "claude" "2026-01-01" c2doc)

theorem C2_checkin_reverts_reviewed_witness :
    (metaOr c2s.meta).status = Status.REVIEWED ∧
    (metaOr ((cmd_checkin [] "claude" c2s).2).meta).status = Status.DRAFT ∧
    (metaOr ((cmd_checkin [] "claude" c2s).2).meta).pending_assignees = [] := by
  refine ⟨by decide, ?_⟩
  have h := C2_checkin_reverts_reviewed.2 [] "claude" c2s
    (cmd_checkin [] "claude" c2s).2 (cmd_checkin [] "claude" c2s).1
    ⟨"SOP-001", false, "claude", "2026-01-01", c2doc, c2cmds, rfl⟩
    (Or.inl (by decide)) rfl (by decide)
  exact h

/-- C4: a successful review submission on a document in a review status
removes exactly the submitting assignee from `pending_assignees` (the
submitter necessarily was pending), and the status moves to the corresponding
reviewed state (per `get_reviewed_status`) precisely when the submitter was
the last pending assignee; otherwise the status is unchanged. -/
theorem C4_review_removes_assignee (agents : Agents) (user : String)
    (recommend request_updates : Bool) (comment : String) (s : Sys) (m : Meta)
    (code : Nat) (s' : Sys)
    (hm : s.meta = some m) (hrev : is_review_status m.status = true)
    (hcmd : cmd_review agents user recommend request_updates comment s = (code, s'))
    (h0 : code = 0) :
    ∃ m', s'.meta = some m' ∧
      user ∈ m.pending_assignees ∧
      m'.pending_assignees = m.pending_assignees.filter (fun x => x ≠ user) ∧
      (m.pending_assignees.filter (fun x => x ≠ user) = [] →
        get_reviewed_status m.status = some m'.status) ∧
      (m.pending_assignees.filter (fun x => x ≠ user) ≠ [] → m'.status = m.status) := by
  unfold cmd_review at hcmd
  rw [hm] at hcmd
  simp only [metaOr_some] at hcmd
  split at hcmd
  · injection hcmd with h1 h2
    rw [h0] at h1
    exact absurd h1 (by simp)
  split at hcmd
  · injection hcmd with h1 h2
    rw [h0] at h1
    exact absurd h1 (by simp)
  split at hcmd
  · injection hcmd with h1 h2
    rw [h0] at h1
    exact absurd h1 (by simp)
  split at hcmd
  · injection hcmd with h1 h2
    rw [h0] at h1
    exact absurd h1 (by simp)
  rename_i outcome houtcome
  split at hcmd
  · injection hcmd with h1 h2
    rw [h0] at h1
    exact absurd h1 (by simp)
  split at hcmd
  · injection hcmd with h1 h2
    rw [h0] at h1
    exact absurd h1 (by simp)
  rename_i hmem
  have hmem' : user ∈ m.pending_assignees := by
    by_contra hc
    exact hmem hc
  injection hcmd with h1 h2
  refine ⟨review_meta m user outcome, by rw [← h2], hmem',
    review_meta_pending m user outcome, ?_, ?_⟩
  · intro hempty
    have hcase : m.status = .IN_REVIEW ∨ m.status = .IN_PRE_REVIEW ∨
        m.status = .IN_POST_REVIEW := by
      simpa [is_review_status] using hrev
    rcases hcase with hst | hst | hst <;>
      rw [review_meta_status_eq m user outcome _ hempty (by rw [hst]; rfl)] <;>
      rw [hst] <;> rfl
  · intro hne
    exact review_meta_status_ne m user outcome hne

/-- The C4 witness state: SOP-001 in IN_REVIEW with qa as last reviewer. -/
def c4s : Sys :=
  { doc_id := "SOP-001"
    meta := some { Meta.empty with status := .IN_REVIEW, pending_assignees := ["qa"] }
    draft := some { frontmatter := [("title", "T")], body := "B" }
    effective := none
    archive := []
    audit := []
    tasks := []
    workspaces := [] }

theorem C4_review_removes_assignee_witness :
    ∃ m', ((cmd_review [("qa", "quality")] "qa" true false "ok" c4s).2).meta = some m' ∧
      "qa" ∈ (metaOr c4s.meta).pending_assignees ∧
      m'.pending_assignees =
        (metaOr c4s.meta).pending_assignees.filter (fun x => x ≠ "qa") ∧
      ((metaOr c4s.meta).pending_assignees.filter (fun x => x ≠ "qa") = [] →
        get_reviewed_status (metaOr c4s.meta).status = some m'.status) ∧
      ((metaOr c4s.meta).pending_assignees.filter (fun x => x ≠ "qa") ≠ [] →
        m'.status = (metaOr c4s.meta).status) :=
  C4_review_removes_assignee [("qa", "quality")] "qa" true false "ok" c4s
    (metaOr c4s.meta)
    (cmd_review [("qa", "quality")] "qa" true false "ok" c4s).1
    (cmd_review [("qa", "quality")] "qa" true false "ok" c4s).2
    rfl (by decide) rfl (by decide)

theorem update_meta_approval_version (m : Meta) (ns : Status) (v : Version) (co : Bool) :
    (update_meta_approval m ns (some v) co).version = v := by
  cases co <;> rfl

theorem update_meta_approval_owner (m : Meta) (ns : Status) (nv : Option Version) :
    (update_meta_approval m ns nv true).responsible_user = none ∧
    (update_meta_approval m ns nv true).checked_out = false := by
  cases nv <;> exact ⟨rfl, rfl⟩

/-- C6: when the last pending assignee approves a document in an approval
status, the version is bumped to the next major (`N.X → (N+1).0`), the
outgoing draft is archived under the old version, and on the non-executable,
non-retiring path (status `IN_APPROVAL`) the final status is `EFFECTIVE`,
owner and checkout are cleared, the effective file holds the minimal write of
the draft, and the draft is deleted. -/
theorem C6_approve_last_bumps_major (agents : Agents) (user : String)
    (s : Sys) (m : Meta) (draft : Document) (code : Nat) (s' : Sys)
    (hm : s.meta = some m) (hd : s.draft = some draft)
    (happ : is_approval_status m.status = true)
    (hlast : m.pending_assignees.filter (fun u => u ≠ user) = [])
    (hcmd : cmd_approve agents user s = (code, s')) (h0 : code = 0) :
    ∃ m', s'.meta = some m' ∧
      m'.version = bumpMajor m.version ∧
      (m.version, draft) ∈ s'.archive ∧
      (m.status = .IN_APPROVAL ∧ m.retiring = false →
        m'.status = .EFFECTIVE ∧ m'.responsible_user = none ∧
        m'.checked_out = false ∧
        s'.effective = some (minimalDoc draft) ∧ s'.draft = none) := by
  unfold cmd_approve at hcmd
  rw [hm] at hcmd
  simp only [metaOr_some] at hcmd
  split at hcmd
  · injection hcmd with h1 h2
    rw [h0] at h1
    exact absurd h1 (by simp)
  split at hcmd
  · injection hcmd with h1 h2
    rw [h0] at h1
    exact absurd h1 (by simp)
  split at hcmd
  · injection hcmd with h1 h2
    rw [h0] at h1
    exact absurd h1 (by simp)
  rename_i d hd2
  rw [hd] at hd2
  injection hd2 with hdd
  subst hdd
  have hcase : m.status = .IN_APPROVAL ∨ m.status = .IN_PRE_APPROVAL ∨
      m.status = .IN_POST_APPROVAL := by
    simpa [is_approval_status] using happ
  split at hcmd
  · injection hcmd with h1 h2
    rw [h0] at h1
    exact absurd h1 (by simp)
  split at hcmd
  · rename_i heqnone
    rcases hcase with hst | hst | hst <;> rw [hst] at heqnone <;>
      exact absurd heqnone (by decide)
  rename_i ns hns
  split at hcmd
  · rename_i hret
    injection hcmd with h1 h2
    refine ⟨{ update_meta_approval m .RETIRED (some (bumpMajor m.version)) true with
        retiring := false }, by rw [← h2],
      update_meta_approval_version m .RETIRED _ true, ?_, ?_⟩
    · rw [← h2]
      simp [List.mem_append]
    · rintro ⟨hst, hr⟩
      rw [hr] at hret
      exact absurd hret (by simp)
  split at hcmd
  · rename_i hret hnsA
    injection hcmd with h1 h2
    refine ⟨update_meta_approval m .EFFECTIVE (some (bumpMajor m.version)) true,
      by rw [← h2], update_meta_approval_version m .EFFECTIVE _ true, ?_, ?_⟩
    · rw [← h2]
      simp [List.mem_append]
    · rintro ⟨hst, hr⟩
      refine ⟨update_meta_approval_status m .EFFECTIVE _ true,
        (update_meta_approval_owner m .EFFECTIVE _).1,
        (update_meta_approval_owner m .EFFECTIVE _).2, ?_, ?_⟩
      · rw [← h2]
      · rw [← h2]
  · rename_i hret hnsA
    injection hcmd with h1 h2
    refine ⟨update_meta_approval m ns (some (bumpMajor m.version)) false,
      by rw [← h2], update_meta_approval_version m ns _ false, ?_, ?_⟩
    · rw [← h2]
      simp [List.mem_append]
    · rintro ⟨hst, hr⟩
      rw [hst] at hns
      injection hns with hns2
      exact absurd hns2.symm hnsA

/-- The C6 witness state: SOP-001 in IN_APPROVAL at version 0.3 with qa as
last approver. -/
def c6m : Meta :=
  { Meta.empty with
    status := .IN_APPROVAL
    version := ⟨0, 3⟩
    pending_assignees := ["qa"] }

def c6s : Sys :=
  { doc_id := "SOP-001"
    meta := some c6m
    draft := some { frontmatter := [("title", "T")], body := "B" }
    effective := none
    archive := []
    audit := []
    tasks := []
    workspaces := [] }

theorem C6_approve_last_bumps_major_witness :
    ∃ m', ((cmd_approve [("qa", "quality")] "qa" c6s).2).meta = some m' ∧
      m'.version = bumpMajor c6m.version ∧
      (c6m.version, { frontmatter := [("title", "T")], body := "B" }) ∈
        ((cmd_approve [("qa", "quality")] "qa" c6s).2).archive ∧
      (c6m.status = .IN_APPROVAL ∧ c6m.retiring = false →
        m'.status = .EFFECTIVE ∧ m'.responsible_user = none ∧
        m'.checked_out = false ∧
        ((cmd_approve [("qa", "quality")] "qa" c6s).2).effective =
          some (minimalDoc { frontmatter := [("title", "T")], body := "B" }) ∧
        ((cmd_approve [("qa", "quality")] "qa" c6s).2).draft = none) :=
  C6_approve_last_bumps_major [("qa", "quality")] "qa" c6s c6m
    { frontmatter := [("title", "T")], body := "B" }
    (cmd_approve [("qa", "quality")] "qa" c6s).1
    (cmd_approve [("qa", "quality")] "qa" c6s).2
    rfl rfl (by decide) (by decide) rfl (by decide)

/-- C7: a successful reject on a document in an approval status moves the
status to the corresponding reviewed state (`IN_APPROVAL → REVIEWED`,
`IN_PRE_APPROVAL → PRE_REVIEWED`, `IN_POST_APPROVAL → POST_REVIEWED`), clears
`pending_assignees`, and removes exactly the open approval tasks for this
document, while version, responsible user, checkout flag and execution phase
are unchanged. -/
theorem C7_reject_to_reviewed (agents : Agents) (user comment : String)
    (s : Sys) (m : Meta) (code : Nat) (s' : Sys)
    (hm : s.meta = some m)
    (happ : is_approval_status m.status = true)
    (hcmd : cmd_reject agents user comment s = (code, s'))
    (h0 : code = 0) :
    ∃ m', s'.meta = some m' ∧
      (m.status = .IN_APPROVAL → m'.status = .REVIEWED) ∧
      (m.status = .IN_PRE_APPROVAL → m'.status = .PRE_REVIEWED) ∧
      (m.status = .IN_POST_APPROVAL → m'.status = .POST_REVIEWED) ∧
      m'.pending_assignees = [] ∧
      m'.version = m.version ∧
      m'.responsible_user = m.responsible_user ∧
      m'.checked_out = m.checked_out ∧
      m'.execution_phase = m.execution_phase ∧
      (∀ t, t ∈ s'.tasks ↔ t ∈ s.tasks ∧
        ¬(t.doc_id = s.doc_id ∧ containsSub ("approval").data t.wf.data = true)) := by
  unfold cmd_reject at hcmd
  rw [hm] at hcmd
  simp only [metaOr_some] at hcmd
  have hcase : m.status = .IN_APPROVAL ∨ m.status = .IN_PRE_APPROVAL ∨
      m.status = .IN_POST_APPROVAL := by
    simpa [is_approval_status] using happ
  split at hcmd
  · injection hcmd with h1 h2
    rw [h0] at h1
    exact absurd h1 (by simp)
  split at hcmd
  · injection hcmd with h1 h2
    rw [h0] at h1
    exact absurd h1 (by simp)
  split at hcmd
  · injection hcmd with h1 h2
    rw [h0] at h1
    exact absurd h1 (by simp)
  split at hcmd
  · injection hcmd with h1 h2
    rw [h0] at h1
    exact absurd h1 (by simp)
  split at hcmd
  · injection hcmd with h1 h2
    rw [h0] at h1
    exact absurd h1 (by simp)
  split at hcmd
  · rename_i ns hns
    injection hcmd with h1 h2
    refine ⟨{ update_meta_approval m ns none false with pending_assignees := [] },
      by rw [← h2], ?_, ?_, ?_, rfl, rfl, rfl, rfl, rfl, ?_⟩
    · intro hst
      have hs' : ({ update_meta_approval m ns none false with
          pending_assignees := ([] : List String) }).status = ns :=
        update_meta_approval_status m ns none false
      rw [hs']
      rw [hst] at hns
      injection hns with h
      exact h.symm
    · intro hst
      have hs' : ({ update_meta_approval m ns none false with
          pending_assignees := ([] : List String) }).status = ns :=
        update_meta_approval_status m ns none false
      rw [hs']
      rw [hst] at hns
      injection hns with h
      exact h.symm
    · intro hst
      have hs' : ({ update_meta_approval m ns none false with
          pending_assignees := ([] : List String) }).status = ns :=
        update_meta_approval_status m ns none false
      rw [hs']
      rw [hst] at hns
      injection hns with h
      exact h.symm
    · intro t
      rw [← h2]
      simp [List.mem_filter]
      tauto
  · rename_i heqnone
    rcases hcase with hst | hst | hst <;> rw [hst] at heqnone <;>
      exact absurd heqnone (by decide)

/-- The C7 witness state: SOP-001 in IN_APPROVAL with qa as pending approver
and one open approval task in qa's inbox. -/
def c7m : Meta :=
  { Meta.empty with
    status := .IN_APPROVAL
    version := ⟨1, 2⟩
    pending_assignees := ["qa"] }

def c7s : Sys :=
  { doc_id := "SOP-001"
    meta := some c7m
    draft := some { frontmatter := [("title", "T")], body := "B" }
    effective := none
    archive := []
    audit := []
    tasks := [{ user := "qa", doc_id := "SOP-001", wf := "approval", ver := "1.2" }]
    workspaces := [] }

theorem C7_reject_to_reviewed_witness :
    ∃ m', ((cmd_reject [("qa", "quality")] "qa" "needs work" c7s).2).meta = some m' ∧
      (c7m.status = .IN_APPROVAL → m'.status = .REVIEWED) ∧
      (c7m.status = .IN_PRE_APPROVAL → m'.status = .PRE_REVIEWED) ∧
      (c7m.status = .IN_POST_APPROVAL → m'.status = .POST_REVIEWED) ∧
      m'.pending_assignees = [] ∧
      m'.version = c7m.version ∧
      m'.responsible_user = c7m.responsible_user ∧
      m'.checked_out = c7m.checked_out ∧
      m'.execution_phase = c7m.execution_phase ∧
      (∀ t, t ∈ ((cmd_reject [("qa", "quality")] "qa" "needs work" c7s).2).tasks ↔
        t ∈ c7s.tasks ∧
        ¬(t.doc_id = c7s.doc_id ∧ containsSub ("approval").data t.wf.data = true)) :=
  C7_reject_to_reviewed [("qa", "quality")] "qa" "needs work" c7s c7m
    (cmd_reject [("qa", "quality")] "qa" "needs work" c7s).1
    (cmd_reject [("qa", "quality")] "qa" "needs work" c7s).2
    rfl (by decide) rfl (by decide)

/-- C9 (counterexample): the `read → writeMinimal → read` round trip does not
preserve every body.  `parse_frontmatter` strips leading newlines from the
body (`lstrip("\n")` in `qms_io.py`), so a body that begins with a newline
comes back shortened, even though its frontmatter survives intact. -/
theorem C9_roundtrip_counterexample :
    readBackMinimal [("title", "T")] ("\nX").data =
      ([("title", "T")], ("X").data) ∧ ("X").data ≠ ("\nX").data := by
  constructor
  · decide
  · decide

/-- C9 (amended): for well-formed author frontmatter whose serialized YAML
block contains no stray `---` framing occurrence, the round trip returns
exactly the author-maintained entries — `title` and `revision_summary` kept
with their original values, every other key dropped — and the body with its
leading newlines stripped; a body that does not start with a newline is
preserved verbatim. -/
theorem C9_minimal_roundtrip_amended (fm : List (String × String)) (body : List Char)
    (hwf : wellFormedFM (filter_author_frontmatter fm) = true)
    (hNo : noEarlyOcc ("---").data ('\n' :: yamlDumpL (filter_author_frontmatter fm))
      ('\n' :: '\n' :: body) = true) :
    (readBackMinimal fm body).1 = filter_author_frontmatter fm ∧
    lookupKey "title" (readBackMinimal fm body).1 = lookupKey "title" fm ∧
    lookupKey "revision_summary" (readBackMinimal fm body).1 =
      lookupKey "revision_summary" fm ∧
    (∀ k, k ∉ AUTHOR_FRONTMATTER_FIELDS →
      lookupKey k (readBackMinimal fm body).1 = none) ∧
    (readBackMinimal fm body).2 = body.dropWhile (fun c => c = '\n') ∧
    (isPre ['\n'] body = false → (readBackMinimal fm body).2 = body) := by
  have hmain : readBackMinimal fm body =
      (yamlLoadL (yamlDumpL (filter_author_frontmatter fm)),
        body.dropWhile (fun c => c = '\n')) := by
    unfold readBackMinimal write_minimal_content
    exact parse_serialize (filter_author_frontmatter fm) body hNo
  have hfm : (readBackMinimal fm body).1 = filter_author_frontmatter fm := by
    rw [hmain]
    exact yamlLoad_dump _ hwf
  have hbody : (readBackMinimal fm body).2 = body.dropWhile (fun c => c = '\n') := by
    rw [hmain]
  refine ⟨hfm, ?_, ?_, ?_, hbody, ?_⟩
  · rw [hfm]
    unfold filter_author_frontmatter
    rw [lookupKey_filter]
    rw [if_pos (by simp [AUTHOR_FRONTMATTER_FIELDS])]
  · rw [hfm]
    unfold filter_author_frontmatter
    rw [lookupKey_filter]
    rw [if_pos (by simp [AUTHOR_FRONTMATTER_FIELDS])]
  · intro k hk
    rw [hfm]
    unfold filter_author_frontmatter
    rw [lookupKey_filter]
    rw [if_neg hk]
  · intro hpre
    rw [hbody]
    exact dropWhile_of_not_newline body hpre

theorem C9_minimal_roundtrip_amended_witness :
    (readBackMinimal [("title", "T"), ("status", "DRAFT")] ("B").data).1 =
      filter_author_frontmatter [("title", "T"), ("status", "DRAFT")] ∧
    lookupKey "title" (readBackMinimal [("title", "T"), ("status", "DRAFT")] ("B").data).1 =
      lookupKey "title" [("title", "T"), ("status", "DRAFT")] ∧
    lookupKey "revision_summary"
        (readBackMinimal [("title", "T"), ("status", "DRAFT")] ("B").data).1 =
      lookupKey "revision_summary" [("title", "T"), ("status", "DRAFT")] ∧
    (∀ k, k ∉ AUTHOR_FRONTMATTER_FIELDS →
      lookupKey k (readBackMinimal [("title", "T"), ("status", "DRAFT")] ("B").data).1 =
        none) ∧
    (readBackMinimal [("title", "T"), ("status", "DRAFT")] ("B").data).2 =
      ("B").data.dropWhile (fun c => c = '\n') ∧
    (isPre ['\n'] ("B").data = false →
      (readBackMinimal [("title", "T"), ("status", "DRAFT")] ("B").data).2 = ("B").data) :=
  C9_minimal_roundtrip_amended [("title", "T"), ("status", "DRAFT")] ("B").data
    (by decide) (by decide)

end QMS

